import Mathlib

/-!
# SSE load tester (`main.go`): model and properties

A shallow embedding of `main.go`.  The program is a handful of goroutines
sharing one atomic counter (`totalConnections`), one cancellable context and
standard output:

* `main` (banner, token, signal set-up, initial one-connection test, operator loop),
* the signal goroutine of lines 36-40,
* one goroutine per connection (lines 71-98), each of which starts a further
  goroutine that runs `client.SubscribeRaw` (lines 80-88).

Every goroutine is a program counter over the statements of the source; a
scheduler event lets one goroutine run its next statement.  Go `int` is the
64-bit two's-complement integer, `atomic.Int32` the 32-bit one; strings are
sequences of characters.
-/

namespace LoadTest

/-! ## Machine integers -/

/-- Go strings, taken as sequences of characters. -/
abbrev Str := List Char

/-- Two's-complement wrap of an integer to a signed machine word of `bits` bits. -/
def wrapInt (bits : Nat) (x : Int) : Int :=
  (x + 2 ^ (bits - 1)) % 2 ^ bits - 2 ^ (bits - 1)

/-- Largest value of a Go `int` (64 bits). -/
def maxInt64 : Int := 2 ^ 63 - 1

/-- Smallest value of a Go `int` (64 bits). -/
def minInt64 : Int := -(2 ^ 63)

/-- Largest value of an `atomic.Int32`. -/
def maxInt32 : Int := 2 ^ 31 - 1

/-- Smallest value of an `atomic.Int32`. -/
def minInt32 : Int := -(2 ^ 31)

/-- Arithmetic on `int` wraps to 64 bits. -/
def wrap64 (x : Int) : Int := wrapInt 64 x

/-- Arithmetic on `atomic.Int32` wraps to 32 bits. -/
def wrap32 (x : Int) : Int := wrapInt 32 x

/-! ## `fmt.Sprintf`, `strings.TrimSpace`, `strconv.Atoi` -/

/-- The ASCII digit for `d < 10`. -/
def digitChar (d : Nat) : Char := Char.ofNat (48 + d)

/-- The digit loop of `%d`: the last digit of `u` is written first, in front of
what has been written so far, until `u < 10`. -/
def fmtDigits : Nat → Nat → Str → Str
  | 0, _, acc => acc
  | fuel + 1, u, acc =>
    if u < 10 then digitChar u :: acc
    else fmtDigits fuel (u / 10) (digitChar (u % 10) :: acc)

/-- Decimal rendering of a natural number (no leading zeros, `0` is "0"). -/
def fmtNat (u : Nat) : Str := fmtDigits (u + 1) u []

/-- The verb `%d` on an integer: a minus sign for negative numbers, then the
magnitude in decimal. -/
def fmtInt (i : Int) : Str :=
  if i < 0 then '-' :: fmtNat i.natAbs else fmtNat i.natAbs

/-- An operand of `Sprintf`/`Printf`. -/
inductive Arg where
  | str (s : Str)
  | int (i : Int)
  deriving DecidableEq, Repr

/-- The part of `fmt.Sprintf` the program uses: `%s` and `%v` print a string
operand (for an `error`, its text) as it is, `%d` prints an integer operand in
decimal, everything else is copied. -/
def Sprintf : Str → List Arg → Str
  | [], _ => []
  | '%' :: 's' :: rest, Arg.str s :: args => s ++ Sprintf rest args
  | '%' :: 'v' :: rest, Arg.str s :: args => s ++ Sprintf rest args
  | '%' :: 'd' :: rest, Arg.int i :: args => fmtInt i ++ Sprintf rest args
  | c :: rest, args => c :: Sprintf rest args

/-- Go's `unicode.IsSpace`. -/
def isSpace (c : Char) : Bool :=
  let n := c.toNat
  n = 9 || n = 10 || n = 11 || n = 12 || n = 13 || n = 32 || n = 0x85 || n = 0xA0
    || n = 0x1680 || (0x2000 ≤ n && n ≤ 0x200A) || n = 0x2028 || n = 0x2029
    || n = 0x202F || n = 0x205F || n = 0x3000

/-- Go's `strings.TrimSpace`: leading and trailing white space removed. -/
def TrimSpace (s : Str) : Str :=
  ((s.dropWhile isSpace).reverse.dropWhile isSpace).reverse

/-- The value of an ASCII digit, `none` for any other character. -/
def digitVal (c : Char) : Option Nat :=
  if 48 ≤ c.toNat ∧ c.toNat ≤ 57 then some (c.toNat - 48) else none

/-- The accumulation loop of `strconv.ParseUint` in base 10: `n = n*10 + d`
for each digit, an error (`none`) at the first character that is no digit. -/
def parseDigits : Str → Nat → Option Nat
  | [], n => some n
  | c :: rest, n =>
    match digitVal c with
    | none => none
    | some d => parseDigits rest (n * 10 + d)

/-- Go's `strconv.Atoi` on a 64-bit target; `none` stands for a non-nil error
(`ErrSyntax` or `ErrRange`), which is all that `main` looks at.  An optional
sign, then at least one digit; the magnitude has to fit: below `2^63` without a
minus sign, at most `2^63` with one. -/
def Atoi (s : Str) : Option Int :=
  match s with
  | [] => none
  | c :: rest =>
    let neg := c = '-'
    let ds := if c = '-' ∨ c = '+' then rest else s
    if ds = [] then none
    else
      match parseDigits ds 0 with
      | none => none
      | some un =>
        if ¬ neg ∧ (2 : Int) ^ 63 ≤ un then none
        else if neg ∧ (2 : Int) ^ 63 < un then none
        else some (if neg then -(un : Int) else un)

/-! ## Token claims (`generateSubscriberJWT`) -/

/-- The constant `unixToInternal` of package `time`: the seconds from January 1
of year 1 to January 1, 1970. -/
def unixToInternal : Int := 62135596800

/-- A `time.Time` without its location: the seconds since January 1 of year 1,
an `int64`, and the nanoseconds within the second.  A reading that carries the
monotonic clock holds the same seconds in packed form; `Add` and `Unix` see
them through `sec()`, which is the field `sec` here. -/
structure Time where
  sec : Int
  nsec : Int
  deriving DecidableEq, Repr

/-- Go's `time.Unix(sec, nsec)` for `0 <= nsec < 1e9`: the instant that many
seconds after January 1, 1970; the sum is an `int64` and wraps. -/
def unixTime (sec nsec : Int) : Time := { sec := wrap64 (sec + unixToInternal), nsec := nsec }

/-- Go's `time.Duration`: a number of nanoseconds. -/
abbrev Duration := Int

/-- The constant `time.Second`. -/
def Second : Duration := 1000000000

/-- The constant `time.Hour`. -/
def Hour : Duration := 60 * (60 * Second)

/-- Go's `Time.addSec`: the sum is an `int64`; when it overflows the seconds
stay at the end of the range they ran into. -/
def Time.addSec (t : Time) (d : Int) : Time :=
  let sum := wrap64 (t.sec + d)
  if (t.sec < sum ↔ 0 < d) then { t with sec := sum }
  else if 0 < d then { t with sec := maxInt64 }
  else { t with sec := -maxInt64 }

/-- Go's `Time.Add`: the nanoseconds are added with a carry into the seconds,
the seconds by `addSec`. -/
def Time.Add (t : Time) (d : Duration) : Time :=
  let dsec := Int.tdiv d 1000000000
  let nsec := t.nsec + Int.tmod d 1000000000
  if 1000000000 ≤ nsec then
    Time.addSec { t with nsec := nsec - 1000000000 } (wrap64 (dsec + 1))
  else if nsec < 0 then Time.addSec { t with nsec := nsec + 1000000000 } (wrap64 (dsec - 1))
  else Time.addSec { t with nsec := nsec } dsec

/-- Go's `Time.Unix`: `sec() + internalToUnix`, an `int64`. -/
def Time.Unix (t : Time) : Int := wrap64 (t.sec + -unixToInternal)

/-- The values that occur in the token's claim set: a number, or an object
whose fields are lists of strings. -/
inductive ClaimValue where
  | num (n : Int)
  | obj (fields : List (Str × List Str))
  deriving DecidableEq, Repr

/-- A `jwt.MapClaims`: claim names with their values. -/
abbrev MapClaims := List (Str × ClaimValue)

/-- The claim set of lines 104-109, built at time `now`. -/
def subscriberClaims (now : Time) : MapClaims :=
  [ ("mercure".toList, ClaimValue.obj [("subscribe".toList, ["*".toList])]),
    ("exp".toList, ClaimValue.num ((now.Add (Hour * 24)).Unix)) ]

/-- Value of a claim, by name. -/
def MapClaims.get (cs : MapClaims) (name : Str) : Option ClaimValue :=
  (cs.find? (fun kv => kv.1 = name)).map (fun kv => kv.2)

/-! ## Output -/

/-- The lines the program writes to standard output, one constructor per
`Println`/`Printf`/`Print` of the source. -/
inductive Line where
  | starting
  | shuttingDown
  | testingInitial
  | mainTotal (n : Int)
  | prompt
  | invalid
  | adding (n : Int)
  | received (connectionID : Int) (data : Str)
  | failed (connectionID : Int) (err : Str)
  | established (connectionID : Int) (topic : Str)
  | workerTotal (n : Int)
  | workerShutdown (connectionID : Int)
  | jwtFailed (err : Str)
  deriving DecidableEq, Repr

/-- The text of an output line. -/
def Line.render : Line → Str
  | Line.starting => "Starting SSE Load Test\n".toList
  | Line.shuttingDown => "\nShutting down...\n".toList
  | Line.testingInitial => "Testing with one connection initially...\n".toList
  | Line.mainTotal n => Sprintf "\nCurrent total connections: %d\n".toList [Arg.int n]
  | Line.prompt => "Enter the number of additional connections to add (e.g., 10000): ".toList
  | Line.invalid => "Invalid input, please enter a valid number.\n".toList
  | Line.adding n => Sprintf "Adding %d connections...\n".toList [Arg.int n]
  | Line.received connectionID data =>
    Sprintf "Connection %d received message: %s\n".toList [Arg.int connectionID, Arg.str data]
  | Line.failed connectionID err =>
    Sprintf "Connection %d failed: %v\n".toList [Arg.int connectionID, Arg.str err]
  | Line.established connectionID topic =>
    Sprintf "Connection %d to topic '%s' established.\n".toList
      [Arg.int connectionID, Arg.str topic]
  | Line.workerTotal n => Sprintf "Current total connections: %d\n".toList [Arg.int n]
  | Line.workerShutdown connectionID =>
    Sprintf "Connection %d shutting down.\n".toList [Arg.int connectionID]
  | Line.jwtFailed err => Sprintf "Failed to generate JWT: %v\n".toList [Arg.str err]

/-- What `generateSubscriberJWT` does: it returns the token, or prints a line
and calls `os.Exit(1)`.  The HS256 signature is the parameter `sign`. -/
def generateSubscriberJWT (sign : MapClaims → Str → Except Str Str) (now : Time)
    (secret : Str) : Except Line Str :=
  match sign (subscriberClaims now) secret with
  | Except.ok tokenString => Except.ok tokenString
  | Except.error err => Except.error (Line.jwtFailed err)

/-! ## Connection workers -/

/-- An `sse.Client`, as far as the program touches it. -/
structure Client where
  URL : Str
  Headers : List (Str × Str)
  deriving DecidableEq, Repr

/-- The library call `sse.NewClient(url)`: a client with no headers of its own. -/
def NewClient (url : Str) : Client := { URL := url, Headers := [] }

/-- Assignment `c.Headers[key] = value` on the header map. -/
def Client.setHeader (c : Client) (key value : Str) : Client :=
  { c with Headers := (key, value) :: c.Headers.filter (fun kv => kv.1 ≠ key) }

/-- Lookup in the header map. -/
def Client.header (c : Client) (key : Str) : Option Str :=
  (c.Headers.find? (fun kv => kv.1 = key)).map (fun kv => kv.2)

/-- Line 72: the topic of a connection. -/
def workerTopic (connectionID : Int) : Str :=
  Sprintf "test-topic-%d".toList [Arg.int connectionID]

/-- Line 73: the URL of a connection. -/
def workerURL (connectionID : Int) (baseURL : Str) : Str :=
  Sprintf "%s?topic=%s".toList [Arg.str baseURL, Arg.str (workerTopic connectionID)]

/-- Lines 72-78: the client a worker builds. -/
def workerClient (connectionID : Int) (baseURL subscriberJWT : Str) : Client :=
  (NewClient (workerURL connectionID baseURL)).setHeader "Authorization".toList
    ("Bearer ".toList ++ subscriberJWT)

/-- Where a worker goroutine (lines 71-98) stands: the statement it runs next. -/
inductive WorkerPC where
  | setup           -- lines 72-88: topic, URL, client, header, `go func() {...}()`
  | logEstablished  -- line 90
  | addOne          -- line 91
  | logTotal        -- line 92
  | awaitDone       -- line 95
  | logShutdown     -- line 96
  | subOne          -- line 97
  | finished
  deriving DecidableEq, Repr

/-- Where the goroutine of lines 80-88 stands: not started, inside
`client.SubscribeRaw`, returned with an error (the failure line printed; the
`return` of line 86 ends this goroutine only), or returned without one. -/
inductive SubPC where
  | idle
  | subscribing
  | failed (err : Str)
  | ended
  deriving DecidableEq, Repr

/-- A worker goroutine: the arguments it was started with, its locals, and the
two program counters. -/
structure Worker where
  connectionID : Int
  baseURL : Str
  subscriberJWT : Str
  client : Option Client
  pc : WorkerPC
  sub : SubPC
  deriving DecidableEq, Repr

/-- The goroutine started by `go func(connectionID int) {...}(i)`. -/
def Worker.spawn (connectionID : Int) (baseURL subscriberJWT : Str) : Worker :=
  { connectionID := connectionID, baseURL := baseURL, subscriberJWT := subscriberJWT,
    client := none, pc := WorkerPC.setup, sub := SubPC.idle }

/-! ## The process -/

/-- Where `main` stands: the statement it runs next.  `returned` is the
`return` of line 50, `exited` the `os.Exit(1)` of line 115, `killed` the
runtime's default action on a signal that arrives before `signal.Notify`. -/
inductive MainPC where
  | banner              -- line 26
  | genJWT              -- line 29
  | notify              -- lines 32-40
  | logInitial          -- line 43
  | initialTest         -- line 44
  | select              -- lines 48-51
  | logTotal            -- line 52
  | prompt              -- line 53
  | read                -- lines 55-58
  | logInvalid          -- lines 59-60
  | logAdding (n : Int) -- line 63
  | launch (n : Int)    -- line 64
  | returned
  | exited
  | killed
  deriving DecidableEq, Repr

/-- Where the signal goroutine (lines 36-40) stands. -/
inductive HandlerPC where
  | absent       -- not started yet
  | waiting      -- line 37
  | logShutdown  -- line 38
  | cancel       -- line 39
  | finished
  deriving DecidableEq, Repr

/-- The state of the process. `done` says that `ctx.Done()` is closed,
`sigBuf` that `signalChan` (capacity 1) holds a signal. -/
structure State where
  totalConnections : Int
  done : Bool
  sigBuf : Bool
  handler : HandlerPC
  main : MainPC
  subscriberJWT : Str
  workers : List Worker
  out : List Line
  deriving DecidableEq, Repr

/-- The state in which the process starts. -/
def init : State :=
  { totalConnections := 0, done := false, sigBuf := false, handler := HandlerPC.absent,
    main := MainPC.banner, subscriberJWT := [], workers := [], out := [] }

/-- What the process is given: the two package-level settings, the clock
reading of line 108 and the signing function. -/
structure Env where
  baseURL : Str
  secret : Str
  now : Time
  sign : MapClaims → Str → Except Str Str

/-- The loop of `runLoadTest`, from the test `i <= numConnections` on; `i++`
wraps as Go's `int` does.  `none`: the loop is still running when the fuel is
used up. -/
def runLoadTestLoop (numConnections : Int) (baseURL subscriberJWT : Str) :
    Nat → Int → State → Option State
  | 0, _, _ => none
  | fuel + 1, i, s =>
    if i ≤ numConnections then
      runLoadTestLoop numConnections baseURL subscriberJWT fuel (wrap64 (i + 1))
        { s with workers := s.workers ++ [Worker.spawn i baseURL subscriberJWT] }
    else some s

/-- The function `runLoadTest` (lines 69-100); the context is the one context
of the process, `State.done`. -/
def runLoadTest (fuel : Nat) (s : State) (numConnections : Int)
    (baseURL subscriberJWT : Str) : Option State :=
  runLoadTestLoop numConnections baseURL subscriberJWT fuel 1 s

/-- Number of loop tests a call of `runLoadTest` that returns goes through. -/
def callFuel (numConnections : Int) : Nat := numConnections.toNat + 1

/-- A scheduler event: a signal arrives from the operating system, or one
goroutine runs its next statement.  `main` carries what `ReadString` returns if
the statement is the read; the two `sub` events are the library calling the
message callback and `SubscribeRaw` returning (with an error or with nil). -/
inductive Event where
  | signal
  | handler
  | main (input : Str)
  | worker (k : Nat)
  | subMessage (k : Nat) (data : Str)
  | subReturn (k : Nat) (err : Option Str)
  deriving DecidableEq, Repr

/-- The process has ended: no goroutine runs any more. -/
def MainPC.terminated : MainPC → Bool
  | MainPC.returned => true
  | MainPC.exited => true
  | MainPC.killed => true
  | _ => false

/-- A signal arrives: before `signal.Notify` it ends the process; afterwards it
is put into `signalChan` if there is room and dropped otherwise. -/
def stepSignal (s : State) : Option State :=
  match s.handler with
  | HandlerPC.absent => some { s with main := MainPC.killed }
  | _ => some { s with sigBuf := true }

/-- The call `cancel()` of line 39: `ctx.Done()` is closed from now on; a
further call changes nothing. -/
def State.cancel (s : State) : State := { s with done := true }

/-- The signal goroutine, lines 37-39. -/
def stepHandler (s : State) : Option State :=
  match s.handler with
  | HandlerPC.absent => none
  | HandlerPC.waiting =>
    if s.sigBuf then some { s with sigBuf := false, handler := HandlerPC.logShutdown }
    else none
  | HandlerPC.logShutdown =>
    some { s with out := s.out ++ [Line.shuttingDown], handler := HandlerPC.cancel }
  | HandlerPC.cancel => some { s.cancel with handler := HandlerPC.finished }
  | HandlerPC.finished => none

/-- One statement of `main` (lines 26-66).  A call of `runLoadTest` is one
step: the workers it starts take their first step after it has returned (a
goroutine that has not run yet has no effect on the others), and a call that
does not return is no step. -/
def stepMain (env : Env) (input : Str) (s : State) : Option State :=
  match s.main with
  | MainPC.banner => some { s with out := s.out ++ [Line.starting], main := MainPC.genJWT }
  | MainPC.genJWT =>
    match generateSubscriberJWT env.sign env.now env.secret with
    | Except.ok token => some { s with subscriberJWT := token, main := MainPC.notify }
    | Except.error line => some { s with out := s.out ++ [line], main := MainPC.exited }
  | MainPC.notify => some { s with handler := HandlerPC.waiting, main := MainPC.logInitial }
  | MainPC.logInitial =>
    some { s with out := s.out ++ [Line.testingInitial], main := MainPC.initialTest }
  | MainPC.initialTest =>
    (runLoadTest (callFuel 1) s 1 env.baseURL s.subscriberJWT).map
      (fun t => { t with main := MainPC.select })
  | MainPC.select =>
    if s.done then some { s with main := MainPC.returned }
    else some { s with main := MainPC.logTotal }
  | MainPC.logTotal =>
    some { s with out := s.out ++ [Line.mainTotal s.totalConnections], main := MainPC.prompt }
  | MainPC.prompt => some { s with out := s.out ++ [Line.prompt], main := MainPC.read }
  | MainPC.read =>
    match Atoi (TrimSpace input) with
    | none => some { s with main := MainPC.logInvalid }
    | some additionalConnections =>
      some { s with main := MainPC.logAdding additionalConnections }
  | MainPC.logInvalid => some { s with out := s.out ++ [Line.invalid], main := MainPC.select }
  | MainPC.logAdding n =>
    some { s with out := s.out ++ [Line.adding n], main := MainPC.launch n }
  | MainPC.launch n =>
    (runLoadTest (callFuel n) s n env.baseURL s.subscriberJWT).map
      (fun t => { t with main := MainPC.select })
  | MainPC.returned => none
  | MainPC.exited => none
  | MainPC.killed => none

/-- Worker `k` replaced by `w`. -/
def State.setWorker (s : State) (k : Nat) (w : Worker) : State :=
  { s with workers := s.workers.set k w }

/-- A line written to standard output. -/
def State.print (s : State) (l : Line) : State :=
  { s with out := s.out ++ [l] }

/-- The call `totalConnections.Add(delta)`. -/
def State.add (s : State) (delta : Int) : State :=
  { s with totalConnections := wrap32 (s.totalConnections + delta) }

/-- One statement of a worker (lines 72-97). -/
def stepWorkerAt (s : State) (k : Nat) (w : Worker) : Option State :=
  match w.pc with
  | WorkerPC.setup =>
    some (s.setWorker k
      { w with client := some (workerClient w.connectionID w.baseURL w.subscriberJWT),
               sub := SubPC.subscribing, pc := WorkerPC.logEstablished })
  | WorkerPC.logEstablished =>
    some ((s.print (Line.established w.connectionID (workerTopic w.connectionID))).setWorker k
      { w with pc := WorkerPC.addOne })
  | WorkerPC.addOne => some ((s.add 1).setWorker k { w with pc := WorkerPC.logTotal })
  | WorkerPC.logTotal =>
    some ((s.print (Line.workerTotal s.totalConnections)).setWorker k
      { w with pc := WorkerPC.awaitDone })
  | WorkerPC.awaitDone =>
    if s.done then some (s.setWorker k { w with pc := WorkerPC.logShutdown }) else none
  | WorkerPC.logShutdown =>
    some ((s.print (Line.workerShutdown w.connectionID)).setWorker k
      { w with pc := WorkerPC.subOne })
  | WorkerPC.subOne => some ((s.add (-1)).setWorker k { w with pc := WorkerPC.finished })
  | WorkerPC.finished => none

/-- The goroutine of lines 80-88: the library calls the message callback
(`ret = none`), or `SubscribeRaw` returns (`ret = some err`) and a failure line
is printed if it returned an error. -/
def stepSubAt (s : State) (k : Nat) (w : Worker) (ret : Option (Option Str))
    (data : Str) : Option State :=
  match w.sub with
  | SubPC.subscribing =>
    match ret with
    | none => some (s.print (Line.received w.connectionID data))
    | some none => some (s.setWorker k { w with sub := SubPC.ended })
    | some (some err) =>
      some ((s.print (Line.failed w.connectionID err)).setWorker k
        { w with sub := SubPC.failed err })
  | _ => none

/-- One scheduler event; `none` when the goroutine cannot run (it is blocked,
it has finished, or the process has ended). -/
def step (env : Env) (e : Event) (s : State) : Option State :=
  if s.main.terminated then none
  else
    match e with
    | Event.signal => stepSignal s
    | Event.handler => stepHandler s
    | Event.main input => stepMain env input s
    | Event.worker k =>
      match s.workers[k]? with
      | none => none
      | some w => stepWorkerAt s k w
    | Event.subMessage k data =>
      match s.workers[k]? with
      | none => none
      | some w => stepSubAt s k w none data
    | Event.subReturn k err =>
      match s.workers[k]? with
      | none => none
      | some w => stepSubAt s k w (some err) []

/-- A run: the events of a schedule, one after the other. -/
def exec (env : Env) : List Event → State → Option State
  | [], s => some s
  | e :: es, s =>
    match step env e s with
    | none => none
    | some t => exec env es t

/-! ## Observations on states and runs -/

/-- The worker has run `totalConnections.Add(1)` (line 91) and not yet
`totalConnections.Add(-1)` (line 97). -/
def WorkerPC.counted : WorkerPC → Bool
  | WorkerPC.logTotal => true
  | WorkerPC.awaitDone => true
  | WorkerPC.logShutdown => true
  | WorkerPC.subOne => true
  | _ => false

/-- An "established" line (line 90). -/
def Line.isEstablished : Line → Bool
  | Line.established _ _ => true
  | _ => false

/-- A "shutting down" line of a worker (line 96). -/
def Line.isShutdown : Line → Bool
  | Line.workerShutdown _ => true
  | _ => false

/-- The prompt of the operator loop (line 53). -/
def Line.isPrompt : Line → Bool
  | Line.prompt => true
  | _ => false

/-- Number of workers between line 91 and line 97. -/
def State.counted (s : State) : Nat := s.workers.countP (fun w => w.pc.counted)

/-- Number of workers that stand at the statement `pc`. -/
def State.at (s : State) (pc : WorkerPC) : Nat := s.workers.countP (fun w => w.pc = pc)

/-- Number of "established" lines printed so far. -/
def State.establishedLines (s : State) : Nat := s.out.countP Line.isEstablished

/-- Number of "shutting down" lines printed by workers so far. -/
def State.shutdownLines (s : State) : Nat := s.out.countP Line.isShutdown

/-- Number of workers that have printed their "established" line and not yet
their "shutting down" line. -/
def State.betweenLines (s : State) : Int :=
  (s.establishedLines : Int) - (s.shutdownLines : Int)

/-- The workers that `runLoadTest` starts for `count`: ids `1, 2, ..., count`, in this order. -/
def batch (count : Int) (baseURL subscriberJWT : Str) : List Worker :=
  (List.range count.toNat).map (fun (k : Nat) => Worker.spawn ((k : Int) + 1) baseURL subscriberJWT)

/-- The quantities the counter invariants relate. -/
structure Measures where
  counter : Int
  counted : Nat
  atAdd : Nat
  atSub : Nat
  established : Nat
  shutdown : Nat
  size : Nat
  deriving DecidableEq, Repr

/-- The measures of a state. -/
def State.measures (s : State) : Measures :=
  { counter := s.totalConnections, counted := s.counted, atAdd := s.at WorkerPC.addOne,
    atSub := s.at WorkerPC.subOne, established := s.establishedLines,
    shutdown := s.shutdownLines, size := s.workers.length }

/-- The five ways in which one event can change the measures: nothing changes
(but workers may be added), or a worker runs line 90, 91, 96 or 97. -/
def Measures.Moves (a b : Measures) : Prop :=
  (b.counter = a.counter ∧ b.counted = a.counted ∧ b.atAdd = a.atAdd ∧ b.atSub = a.atSub
      ∧ b.established = a.established ∧ b.shutdown = a.shutdown ∧ a.size ≤ b.size)
  ∨ (b.counter = a.counter ∧ b.counted = a.counted ∧ b.atAdd = a.atAdd + 1 ∧ b.atSub = a.atSub
      ∧ b.established = a.established + 1 ∧ b.shutdown = a.shutdown ∧ a.size ≤ b.size)
  ∨ (b.counter = wrap32 (a.counter + 1) ∧ b.counted = a.counted + 1 ∧ b.atAdd + 1 = a.atAdd
      ∧ b.atSub = a.atSub ∧ b.established = a.established ∧ b.shutdown = a.shutdown
      ∧ a.size ≤ b.size)
  ∨ (b.counter = a.counter ∧ b.counted = a.counted ∧ b.atAdd = a.atAdd ∧ b.atSub = a.atSub + 1
      ∧ b.established = a.established ∧ b.shutdown = a.shutdown + 1 ∧ a.size ≤ b.size)
  ∨ (b.counter = wrap32 (a.counter + -1) ∧ b.counted + 1 = a.counted ∧ b.atAdd = a.atAdd
      ∧ b.atSub + 1 = a.atSub ∧ b.established = a.established ∧ b.shutdown = a.shutdown
      ∧ a.size ≤ b.size)

/-- The counter is the number of counted workers, wrapped to 32 bits, up to
the offset `c0`. -/
def CounterInv (c0 : Int) (m : Measures) : Prop :=
  m.counter = wrap32 (c0 + (m.counted : Int))

/-- Lines printed against positions of the workers. -/
def LinesInv (m : Measures) : Prop :=
  m.established + m.atSub = m.shutdown + m.counted + m.atAdd

/-- A concrete configuration for runs: the settings of the source (both
empty), the clock at 1700000000 s, and a signature that succeeds. -/
def demoEnv : Env :=
  { baseURL := [], secret := [], now := unixTime 1700000000 0,
    sign := fun _ _ => Except.ok "token".toList }

/-- `main` runs its next statement (at the read, the line is empty). -/
def mainStep : Event := Event.main []

/-- The workers of the batch launched from a state with `m` workers, `n` of them. -/
def batchOf (m n : Nat) (t : State) : List Worker := (t.workers.drop m).take n

/-- The workers outside that batch. -/
def othersOf (m n : Nat) (t : State) : List Worker := t.workers.take m ++ t.workers.drop (m + n)

/-- The first worker runs its next statement. -/
def worker0 : Event := Event.worker 0

/-- The ids for which the loop of `runLoadTest` starts a worker, in order;
`none` when the fuel runs out first. -/
def loopIds (numConnections : Int) : Nat → Int → Option (List Int)
  | 0, _ => none
  | fuel + 1, i =>
    if i ≤ numConnections then (loopIds numConnections fuel (wrap64 (i + 1))).map (fun l => i :: l)
    else some []

/-- The state with further workers started. -/
def State.spawnAll (s : State) (ids : List Int) (baseURL subscriberJWT : Str) : State :=
  { s with workers := s.workers ++ ids.map (fun i => Worker.spawn i baseURL subscriberJWT) }

/-- The event is a statement of `main`. -/
def Event.isMain : Event → Bool
  | Event.main _ => true
  | _ => false

/-- The statement is the call of `runLoadTest` in the operator loop (line 64). -/
def MainPC.isLaunch : MainPC → Bool
  | MainPC.launch _ => true
  | _ => false

/-- Number of calls of `runLoadTest` that the operator loop (line 64) makes in a run. -/
def loopLaunches (env : Env) : List Event → State → Nat
  | [], _ => 0
  | e :: es, s =>
    match step env e s with
    | none => 0
    | some t => (if e.isMain && s.main.isLaunch then 1 else 0) + loopLaunches env es t

/-- Number of prompts (line 53) printed so far. -/
def State.promptLines (s : State) : Nat := s.out.countP Line.isPrompt

/-- Calls of `runLoadTest` the current iteration of the loop can still make
before it is back at the `select`. -/
def MainPC.launchesLeft : MainPC → Nat
  | MainPC.logTotal => 1
  | MainPC.prompt => 1
  | MainPC.read => 1
  | MainPC.logAdding _ => 1
  | MainPC.launch _ => 1
  | _ => 0

/-- Prompts the current iteration of the loop can still print before it is
back at the `select`. -/
def MainPC.promptsLeft : MainPC → Nat
  | MainPC.logTotal => 1
  | MainPC.prompt => 1
  | _ => 0

/-- What a step of a worker or of its subscription leaves alone. -/
def State.Frame (s t : State) : Prop :=
  t.main = s.main ∧ t.done = s.done ∧ t.handler = s.handler ∧ t.sigBuf = s.sigBuf
    ∧ t.subscriberJWT = s.subscriberJWT ∧ t.promptLines = s.promptLines

/-- The two states of the operator loop in the design: it is prompting until
`main` has returned at line 50. -/
inductive LoopState where
  | Prompting
  | ShuttingDown
  deriving DecidableEq, Repr

/-- The state of the operator loop. -/
def loopState (s : State) : LoopState :=
  if s.main = MainPC.returned then LoopState.ShuttingDown else LoopState.Prompting

/-- What can be observed of a state: all of it but the content of `signalChan`. -/
def State.observable (s : State) : State := { s with sigBuf := false }

/-- `main` is past `signal.Notify` (line 34). -/
def MainPC.afterNotify : MainPC → Bool
  | MainPC.banner => false
  | MainPC.genJWT => false
  | MainPC.notify => false
  | _ => true

/-- The signal goroutine has received from `signalChan`. -/
def HandlerPC.woken : HandlerPC → Bool
  | HandlerPC.logShutdown => true
  | HandlerPC.cancel => true
  | HandlerPC.finished => true
  | _ => false

/-- Number of times the operator loop goes from prompting to shutting down in a run. -/
def loopReturns (env : Env) : List Event → State → Nat
  | [], _ => 0
  | e :: es, s =>
    match step env e s with
    | none => 0
    | some t =>
      (if loopState s = LoopState.Prompting ∧ loopState t = LoopState.ShuttingDown then 1
        else 0) + loopReturns env es t

/-- A signal has been raised and not lost: the handler is set up, and it has
woken or the signal is waiting for it in `signalChan`. -/
def State.Raised (s : State) : Prop :=
  s.main.afterNotify = true ∧ s.handler ≠ HandlerPC.absent
    ∧ (s.handler = HandlerPC.waiting → s.sigBuf = true)

/-- An ASCII decimal digit. -/
def isDecimalDigit (c : Char) : Bool := decide (48 ≤ c.toNat ∧ c.toNat ≤ 57)

/-- The number a string of decimal digits denotes, most significant digit first. -/
def decimalValue (ds : Str) : Nat :=
  Nat.ofDigits 10 ((ds.map (fun c => c.toNat - 48)).reverse)

/-- The wording of the specification, "a signed decimal integer `n`": an
optional sign, then one or more decimal digits, which denote `n` or, under a
minus sign, `-n`. -/
def IsSignedDecimal (s : Str) (n : Int) : Prop :=
  ∃ ds : Str, ds ≠ [] ∧ (∀ c ∈ ds, isDecimalDigit c = true) ∧
    ((s = ds ∧ n = (decimalValue ds : Int)) ∨ (s = '+' :: ds ∧ n = (decimalValue ds : Int))
      ∨ (s = '-' :: ds ∧ n = -(decimalValue ds : Int)))

/-- Worker `k` runs lines 72-91: it sets up its client, prints its
"established" line and runs `Add(1)`. -/
def establish (k : Nat) : List Event := [Event.worker k, Event.worker k, Event.worker k]

/-- The workers `m, m+1, ..., m+n-1` run lines 72-91, one after the other. -/
def establishRange (m : Nat) : Nat → List Event
  | 0 => []
  | n + 1 => establishRange m n ++ establish (m + n)

/-- The signal goroutine runs lines 37-39, then `main` runs its `select`. -/
def shutdownRest (x : Str) : List Event := [Event.handler, Event.handler, Event.main x]

/-- The signal goroutine receives the signal and runs lines 37-39, then `main`
runs its `select`. -/
def shutdownRun (x : Str) : List Event := Event.handler :: shutdownRest x

/-- The state after a clean shutdown from `s`: the signal taken out of
`signalChan`, "Shutting down..." printed, the context cancelled, the signal
goroutine finished and `main` returned. -/
def shutDown (s : State) : State :=
  { s with sigBuf := false, handler := HandlerPC.finished, done := true,
           out := s.out ++ [Line.shuttingDown], main := MainPC.returned }

/-- The wording of the specification, "decimal(id)": the integer in decimal
notation, as the standard library of Lean writes it (a minus sign for a
negative number, no leading zeros). -/
def decimal (i : Int) : Str := (toString i).toList

/-- One iteration of the operator loop on the line `input`: the `select`, the
two prints, the read with its parse, and the print of the branch taken. -/
def iteration (input : Str) : List Event := List.replicate 5 (Event.main input)

/-- The state at the top of the operator loop right after start-up, when only
`main` has run. -/
def loopStart : State :=
  { init with handler := HandlerPC.waiting, main := MainPC.select,
              subscriberJWT := "token".toList,
              workers := [Worker.spawn 1 [] "token".toList],
              out := [Line.starting, Line.testingInitial] }

/-- The state a schedule leads to from `s` (`s` itself when the schedule
cannot run). -/
def runFrom (s : State) (es : List Event) : State := (exec demoEnv es s).getD s

/-- The state a schedule leads to from the start of the process. -/
def reach (es : List Event) : State := runFrom init es

/-- Start-up: `main` runs lines 26-44 and stands at the `select`. -/
def startUp : List Event := [mainStep, mainStep, mainStep, mainStep, mainStep]

/-- Start-up, then the first worker begins and its `SubscribeRaw` returns an
error, and the worker goes on through lines 90 and 91. -/
def failingRun : List Event :=
  startUp ++ [worker0, Event.subReturn 0 (some "refused".toList), worker0, worker0]

/-- The signal arrives and the signal goroutine runs lines 37-39. -/
def interrupt : List Event := [Event.signal, Event.handler, Event.handler, Event.handler]

/-- Start-up, the loop passes its `select`, and then the signal is raised. -/
def cancelMidIteration : List Event := startUp ++ [mainStep] ++ interrupt

/-- The rest of that iteration, with the operator typing 5. -/
def restOfIteration : List Event :=
  [mainStep, mainStep, Event.main "5\n".toList, mainStep, mainStep]

/-- The second and the third worker run lines 72-91. -/
def twoEstablished : List Event :=
  [Event.worker 1, Event.worker 1, Event.worker 1, Event.worker 2, Event.worker 2,
    Event.worker 2]

/-- After that the signal is raised and both workers run lines 92-97. -/
def twoFinished : List Event :=
  twoEstablished ++ interrupt ++
    [Event.worker 1, Event.worker 1, Event.worker 1, Event.worker 1, Event.worker 2,
      Event.worker 2, Event.worker 2, Event.worker 2]

/-! ## Lemmas -/

theorem digitVal_digitChar (d : Nat) (h : d < 10) : digitVal (digitChar d) = some d := by
  interval_cases d <;> decide

theorem parseDigits_fmtDigits (fuel : Nat) :
    ∀ (u : Nat) (acc : Str), u < fuel →
      parseDigits (fmtDigits fuel u acc) 0 = parseDigits acc u := by
  induction fuel with
  | zero => intro u acc h; omega
  | succ fuel ih =>
    intro u acc h
    unfold fmtDigits
    split
    · rename_i hu
      simp [parseDigits, digitVal_digitChar u hu]
    · rename_i hu
      rw [ih (u / 10) _ (by omega)]
      simp only [parseDigits, digitVal_digitChar (u % 10) (Nat.mod_lt _ (by decide))]
      congr 1
      omega

theorem parseDigits_fmtNat (u : Nat) : parseDigits (fmtNat u) 0 = some u := by
  unfold fmtNat
  rw [parseDigits_fmtDigits (u + 1) u [] (by omega)]
  rfl

theorem fmtNat_injective (u v : Nat) (h : fmtNat u = fmtNat v) : u = v := by
  have hu := parseDigits_fmtNat u
  rw [h, parseDigits_fmtNat v] at hu
  exact (Option.some.inj hu).symm

theorem fmtNat_ne_minus (u : Nat) (l : Str) : fmtNat u ≠ '-' :: l := by
  intro h
  have hu := parseDigits_fmtNat u
  rw [h] at hu
  simp [parseDigits, digitVal] at hu

theorem fmtInt_injective (i j : Int) (h : fmtInt i = fmtInt j) : i = j := by
  unfold fmtInt at h
  split at h <;> split at h
  · have := fmtNat_injective _ _ (List.cons.inj h).2
    omega
  · exact absurd h.symm (fmtNat_ne_minus _ _)
  · exact absurd h (fmtNat_ne_minus _ _)
  · have := fmtNat_injective _ _ h
    omega

theorem digitChar_eq (d : Nat) (h : d < 10) : digitChar d = Nat.digitChar d := by
  interval_cases d <;> rfl

theorem fmtDigits_eq (fuel : Nat) :
    ∀ (u : Nat) (acc : Str), fmtDigits fuel u acc = Nat.toDigitsCore 10 fuel u acc := by
  induction fuel with
  | zero => intro u acc; rfl
  | succ fuel ih =>
    intro u acc
    unfold fmtDigits Nat.toDigitsCore
    by_cases hu : u < 10
    · have h0 : u / 10 = 0 := by omega
      have hm : u % 10 = u := by omega
      simp only [hu, if_true, h0, hm, digitChar_eq u hu]
    · have h0 : ¬ u / 10 = 0 := by omega
      simp only [hu, if_false, h0, ih, digitChar_eq (u % 10) (Nat.mod_lt _ (by decide))]

theorem fmtNat_eq (u : Nat) : fmtNat u = (toString u).toList := by
  unfold fmtNat
  rw [fmtDigits_eq]
  rfl

theorem fmtInt_eq_decimal (i : Int) : fmtInt i = decimal i := by
  unfold fmtInt decimal
  cases i with
  | ofNat m =>
    have h : ¬ (Int.ofNat m < 0) := not_lt.mpr (Int.ofNat_nonneg m)
    rw [if_neg h]
    exact fmtNat_eq m
  | negSucc m =>
    have h : Int.negSucc m < 0 := Int.negSucc_lt_zero m
    rw [if_pos h]
    show '-' :: fmtNat (m + 1) = ("-" ++ toString (m + 1)).toList
    rw [fmtNat_eq]
    rfl

theorem wrap64_succ (i : Int) (h1 : minInt64 ≤ i) (h2 : i < maxInt64) : wrap64 (i + 1) = i + 1 := by
  unfold minInt64 at h1
  unfold maxInt64 at h2
  unfold wrap64 wrapInt
  norm_num at h1 h2 ⊢
  omega

theorem wrap64_le (x : Int) : wrap64 x ≤ maxInt64 := by
  unfold wrap64 wrapInt maxInt64
  norm_num
  omega

theorem runLoadTestLoop_spawns (n : Int) (baseURL jwt : Str) (hn : n < maxInt64) (fuel : Nat) :
    ∀ (i : Int) (s : State), 1 ≤ i → i ≤ n + 1 → (n + 1 - i).toNat < fuel →
      runLoadTestLoop n baseURL jwt fuel i s =
        some { s with workers := s.workers ++
          (List.range (n + 1 - i).toNat).map (fun (k : Nat) => Worker.spawn (i + (k : Int)) baseURL jwt) } := by
  induction fuel with
  | zero => intro i s _ _ h; omega
  | succ fuel ih =>
    intro i s h1 h2 hf
    unfold runLoadTestLoop
    by_cases hi : i ≤ n
    · rw [if_pos hi, wrap64_succ i (by unfold minInt64; omega) (by omega),
        ih (i + 1) _ (by omega) (by omega) (by omega)]
      have hlen : (n + 1 - i).toNat = (n + 1 - (i + 1)).toNat + 1 := by omega
      rw [hlen, List.range_succ_eq_map]
      simp [List.map_map, Function.comp_def, add_assoc, add_comm (1 : Int)]
    · rw [if_neg hi]
      have hlen : (n + 1 - i).toNat = 0 := by omega
      simp [hlen]

theorem runLoadTestLoop_maxInt (baseURL jwt : Str) (fuel : Nat) :
    ∀ (i : Int) (s : State), i ≤ maxInt64 →
      runLoadTestLoop maxInt64 baseURL jwt fuel i s = none := by
  induction fuel with
  | zero => intro i s _; rfl
  | succ fuel ih =>
    intro i s hi
    unfold runLoadTestLoop
    rw [if_pos hi]
    exact ih _ _ (wrap64_le _)

theorem runLoadTest_spawns (fuel : Nat) (s : State) (count : Int) (baseURL subscriberJWT : Str)
    (hcount : count < maxInt64) (hfuel : callFuel count ≤ fuel) :
    runLoadTest fuel s count baseURL subscriberJWT =
      some { s with workers := s.workers ++ batch count baseURL subscriberJWT } := by
  unfold callFuel at hfuel
  unfold runLoadTest batch
  by_cases h0 : 0 ≤ count
  · rw [runLoadTestLoop_spawns count baseURL subscriberJWT hcount fuel 1 s (by omega) (by omega)
      (by omega)]
    simp [add_comm]
  · obtain ⟨f, rfl⟩ : ∃ f, fuel = f + 1 := ⟨fuel - 1, by omega⟩
    have hz : count.toNat = 0 := by omega
    unfold runLoadTestLoop
    rw [if_neg (by omega), hz]
    simp

theorem workerTopic_eq (connectionID : Int) :
    workerTopic connectionID = "test-topic-".toList ++ fmtInt connectionID := by
  simp [workerTopic, Sprintf]

theorem workerURL_eq (connectionID : Int) (baseURL : Str) :
    workerURL connectionID baseURL
      = baseURL ++ "?topic=test-topic-".toList ++ fmtInt connectionID := by
  simp [workerURL, workerTopic, Sprintf]

theorem countP_set_add (p : Worker → Bool) (l : List Worker) :
    ∀ (k : Nat) (w w' : Worker), l[k]? = some w →
      (l.set k w').countP p + (if p w then 1 else 0) = l.countP p + (if p w' then 1 else 0) := by
  induction l with
  | nil => intro k w w' h; simp at h
  | cons a l ih =>
    intro k w w' h
    cases k with
    | zero =>
      simp only [List.getElem?_cons_zero, Option.some.injEq] at h
      subst h
      simp only [List.set_cons_zero, List.countP_cons]
      omega
    | succ k =>
      simp only [List.getElem?_cons_succ] at h
      have := ih k w w' h
      simp only [List.set_cons_succ, List.countP_cons]
      omega

theorem wrap32_wrap32_add (x y : Int) : wrap32 (wrap32 x + y) = wrap32 (x + y) := by
  unfold wrap32 wrapInt
  norm_num
  omega

theorem wrap32_of_range (x : Int) (h1 : minInt32 ≤ x) (h2 : x ≤ maxInt32) : wrap32 x = x := by
  unfold minInt32 at h1
  unfold maxInt32 at h2
  unfold wrap32 wrapInt
  norm_num at h1 h2 ⊢
  omega

/-- What `runLoadTest` changes, whenever it returns: it appends fresh workers. -/
theorem runLoadTestLoop_appends (n : Int) (baseURL jwt : Str) (fuel : Nat) :
    ∀ (i : Int) (s t : State), runLoadTestLoop n baseURL jwt fuel i s = some t →
      ∃ ids : List Int,
        t = { s with workers := s.workers ++ ids.map (fun i => Worker.spawn i baseURL jwt) } := by
  induction fuel with
  | zero => intro i s t h; simp [runLoadTestLoop] at h
  | succ fuel ih =>
    intro i s t h
    unfold runLoadTestLoop at h
    split at h
    · obtain ⟨ids, rfl⟩ := ih _ _ _ h
      exact ⟨i :: ids, by simp⟩
    · simp only [Option.some.injEq] at h
      subst h
      exact ⟨[], by simp⟩

theorem countP_spawned (p : WorkerPC → Bool) (hp : p WorkerPC.setup = false) (ids : List Int)
    (baseURL jwt : Str) :
    (ids.map (fun i => Worker.spawn i baseURL jwt)).countP (fun w => p w.pc) = 0 := by
  induction ids with
  | nil => rfl
  | cons a l ih => simp [List.countP_cons, Worker.spawn, hp] at ih ⊢

theorem measures_setWorker (s : State) (k : Nat) (w w' : Worker) (h : s.workers[k]? = some w) :
    (s.setWorker k w').measures.counter = s.measures.counter
    ∧ (s.setWorker k w').measures.established = s.measures.established
    ∧ (s.setWorker k w').measures.shutdown = s.measures.shutdown
    ∧ (s.setWorker k w').measures.size = s.measures.size
    ∧ (s.setWorker k w').measures.counted + (if w.pc.counted then 1 else 0)
        = s.measures.counted + (if w'.pc.counted then 1 else 0)
    ∧ (s.setWorker k w').measures.atAdd + (if w.pc = WorkerPC.addOne then 1 else 0)
        = s.measures.atAdd + (if w'.pc = WorkerPC.addOne then 1 else 0)
    ∧ (s.setWorker k w').measures.atSub + (if w.pc = WorkerPC.subOne then 1 else 0)
        = s.measures.atSub + (if w'.pc = WorkerPC.subOne then 1 else 0) := by
  refine ⟨rfl, rfl, rfl, ?_, ?_, ?_, ?_⟩
  · simp [State.measures, State.setWorker]
  · exact countP_set_add (fun w => w.pc.counted) s.workers k w w' h
  · have := countP_set_add (fun w => decide (w.pc = WorkerPC.addOne)) s.workers k w w' h
    simpa [State.measures, State.at, State.setWorker] using this
  · have := countP_set_add (fun w => decide (w.pc = WorkerPC.subOne)) s.workers k w w' h
    simpa [State.measures, State.at, State.setWorker] using this

theorem measures_print (s : State) (l : Line) :
    (s.print l).measures =
      { s.measures with
        established := s.measures.established + (if l.isEstablished then 1 else 0),
        shutdown := s.measures.shutdown + (if l.isShutdown then 1 else 0) } := by
  simp [State.measures, State.print, State.counted, State.at, State.establishedLines,
    State.shutdownLines, List.countP_append, List.countP_cons]

theorem measures_add (s : State) (d : Int) :
    (s.add d).measures = { s.measures with counter := wrap32 (s.measures.counter + d) } := rfl

theorem stepWorkerAt_moves (s t : State) (k : Nat) (w : Worker) (hw : s.workers[k]? = some w)
    (h : stepWorkerAt s k w = some t) : s.measures.Moves t.measures := by
  unfold stepWorkerAt at h
  split at h
  · rename_i hpc
    simp only [Option.some.injEq] at h; subst h
    have := measures_setWorker s k w { w with
      client := some (workerClient w.connectionID w.baseURL w.subscriberJWT),
      sub := SubPC.subscribing, pc := WorkerPC.logEstablished } hw
    simp [hpc, WorkerPC.counted] at this
    left; omega
  · rename_i hpc
    simp only [Option.some.injEq] at h; subst h
    have := measures_setWorker (s.print (Line.established w.connectionID
      (workerTopic w.connectionID))) k w { w with pc := WorkerPC.addOne } hw
    simp [hpc, WorkerPC.counted, measures_print, Line.isEstablished, Line.isShutdown] at this
    right; left; omega
  · rename_i hpc
    simp only [Option.some.injEq] at h; subst h
    have := measures_setWorker (s.add 1) k w { w with pc := WorkerPC.logTotal } hw
    simp [hpc, WorkerPC.counted, measures_add] at this
    right; right; left
    refine ⟨this.1, ?_, ?_, ?_, ?_, ?_, ?_⟩ <;> omega
  · rename_i hpc
    simp only [Option.some.injEq] at h; subst h
    have := measures_setWorker (s.print (Line.workerTotal s.totalConnections)) k w
      { w with pc := WorkerPC.awaitDone } hw
    simp [hpc, WorkerPC.counted, measures_print, Line.isEstablished, Line.isShutdown] at this
    left; omega
  · rename_i hpc
    split at h
    · simp only [Option.some.injEq] at h; subst h
      have := measures_setWorker s k w { w with pc := WorkerPC.logShutdown } hw
      simp [hpc, WorkerPC.counted] at this
      left; omega
    · exact Option.noConfusion h
  · rename_i hpc
    simp only [Option.some.injEq] at h; subst h
    have := measures_setWorker (s.print (Line.workerShutdown w.connectionID)) k w
      { w with pc := WorkerPC.subOne } hw
    simp [hpc, WorkerPC.counted, measures_print, Line.isEstablished, Line.isShutdown] at this
    right; right; right; left; omega
  · rename_i hpc
    simp only [Option.some.injEq] at h; subst h
    have := measures_setWorker (s.add (-1)) k w { w with pc := WorkerPC.finished } hw
    simp [hpc, WorkerPC.counted, measures_add] at this
    right; right; right; right
    refine ⟨this.1, ?_, ?_, ?_, ?_, ?_, ?_⟩ <;> omega
  · exact Option.noConfusion h

theorem Measures.Moves.same {a b : Measures} (h : b = a) : a.Moves b := by
  subst h
  exact Or.inl ⟨rfl, rfl, rfl, rfl, rfl, rfl, le_refl _⟩

theorem stepSubAt_moves (s t : State) (k : Nat) (w : Worker) (ret : Option (Option Str))
    (data : Str) (hw : s.workers[k]? = some w) (h : stepSubAt s k w ret data = some t) :
    s.measures.Moves t.measures := by
  unfold stepSubAt at h
  split at h
  · split at h
    · simp only [Option.some.injEq] at h; subst h
      exact Measures.Moves.same (by simp [measures_print, Line.isEstablished, Line.isShutdown])
    · simp only [Option.some.injEq] at h; subst h
      have := measures_setWorker s k w { w with sub := SubPC.ended } hw
      simp at this
      left; omega
    · rename_i err
      simp only [Option.some.injEq] at h; subst h
      have := measures_setWorker (s.print (Line.failed w.connectionID err)) k w
        { w with sub := SubPC.failed err } hw
      simp [measures_print, Line.isEstablished, Line.isShutdown] at this
      left; omega
  · exact Option.noConfusion h

theorem runLoadTest_moves (fuel : Nat) (s t : State) (n : Int) (baseURL jwt : Str) (pc : MainPC)
    (h : runLoadTest fuel s n baseURL jwt = some t) :
    s.measures.Moves ({ t with main := pc } : State).measures := by
  obtain ⟨ids, rfl⟩ := runLoadTestLoop_appends n baseURL jwt fuel 1 s t h
  have h1 := countP_spawned WorkerPC.counted rfl ids baseURL jwt
  have h2 := countP_spawned (fun pc => decide (pc = WorkerPC.addOne)) (by decide) ids baseURL jwt
  have h3 := countP_spawned (fun pc => decide (pc = WorkerPC.subOne)) (by decide) ids baseURL jwt
  left
  simp only [State.measures, State.counted, State.at, State.establishedLines,
    State.shutdownLines, List.countP_append, h1, h2, h3, List.length_append]
  simp

theorem stepMain_moves (env : Env) (input : Str) (s t : State)
    (h : stepMain env input s = some t) : s.measures.Moves t.measures := by
  unfold stepMain at h
  split at h
  · simp only [Option.some.injEq] at h; subst h
    exact Measures.Moves.same (by
      simp [State.measures, State.counted, State.at, State.establishedLines,
        State.shutdownLines, List.countP_append, List.countP_cons, Line.isEstablished,
        Line.isShutdown])
  · split at h
    · simp only [Option.some.injEq] at h; subst h
      exact Measures.Moves.same rfl
    · rename_i line hgen
      simp only [Option.some.injEq] at h; subst h
      have hline : line.isEstablished = false ∧ line.isShutdown = false := by
        unfold generateSubscriberJWT at hgen
        split at hgen
        · exact Except.noConfusion hgen
        · simp only [Except.error.injEq] at hgen
          subst hgen
          exact ⟨rfl, rfl⟩
      exact Measures.Moves.same (by
        simp [State.measures, State.counted, State.at, State.establishedLines,
          State.shutdownLines, List.countP_append, List.countP_cons, hline.1, hline.2])
  · simp only [Option.some.injEq] at h; subst h
    exact Measures.Moves.same rfl
  · simp only [Option.some.injEq] at h; subst h
    exact Measures.Moves.same (by
      simp [State.measures, State.counted, State.at, State.establishedLines,
        State.shutdownLines, List.countP_append, List.countP_cons, Line.isEstablished,
        Line.isShutdown])
  · simp only [Option.map_eq_some'] at h
    obtain ⟨t', ht', rfl⟩ := h
    exact runLoadTest_moves _ _ _ _ _ _ _ ht'
  · split at h <;>
    · simp only [Option.some.injEq] at h; subst h
      exact Measures.Moves.same rfl
  · simp only [Option.some.injEq] at h; subst h
    exact Measures.Moves.same (by
      simp [State.measures, State.counted, State.at, State.establishedLines,
        State.shutdownLines, List.countP_append, List.countP_cons, Line.isEstablished,
        Line.isShutdown])
  · simp only [Option.some.injEq] at h; subst h
    exact Measures.Moves.same (by
      simp [State.measures, State.counted, State.at, State.establishedLines,
        State.shutdownLines, List.countP_append, List.countP_cons, Line.isEstablished,
        Line.isShutdown])
  · split at h <;>
    · simp only [Option.some.injEq] at h; subst h
      exact Measures.Moves.same rfl
  · simp only [Option.some.injEq] at h; subst h
    exact Measures.Moves.same (by
      simp [State.measures, State.counted, State.at, State.establishedLines,
        State.shutdownLines, List.countP_append, List.countP_cons, Line.isEstablished,
        Line.isShutdown])
  · simp only [Option.some.injEq] at h; subst h
    exact Measures.Moves.same (by
      simp [State.measures, State.counted, State.at, State.establishedLines,
        State.shutdownLines, List.countP_append, List.countP_cons, Line.isEstablished,
        Line.isShutdown])
  · simp only [Option.map_eq_some'] at h
    obtain ⟨t', ht', rfl⟩ := h
    exact runLoadTest_moves _ _ _ _ _ _ _ ht'
  · exact Option.noConfusion h
  · exact Option.noConfusion h
  · exact Option.noConfusion h

theorem stepHandler_moves (s t : State) (h : stepHandler s = some t) :
    s.measures.Moves t.measures := by
  unfold stepHandler at h
  split at h
  · exact Option.noConfusion h
  · split at h
    · simp only [Option.some.injEq] at h; subst h
      exact Measures.Moves.same rfl
    · exact Option.noConfusion h
  · simp only [Option.some.injEq] at h; subst h
    exact Measures.Moves.same (by
      simp [State.measures, State.counted, State.at, State.establishedLines,
        State.shutdownLines, List.countP_append, List.countP_cons, Line.isEstablished,
        Line.isShutdown])
  · simp only [Option.some.injEq] at h; subst h
    exact Measures.Moves.same rfl
  · exact Option.noConfusion h

theorem stepSignal_moves (s t : State) (h : stepSignal s = some t) :
    s.measures.Moves t.measures := by
  unfold stepSignal at h
  split at h <;>
  · simp only [Option.some.injEq] at h; subst h
    exact Measures.Moves.same rfl

theorem step_moves (env : Env) (e : Event) (s t : State) (h : step env e s = some t) :
    s.measures.Moves t.measures := by
  unfold step at h
  split at h
  · exact Option.noConfusion h
  · split at h
    · exact stepSignal_moves s t h
    · exact stepHandler_moves s t h
    · exact stepMain_moves env _ s t h
    · split at h
      · exact Option.noConfusion h
      · rename_i w hw
        exact stepWorkerAt_moves s t _ w hw h
    · split at h
      · exact Option.noConfusion h
      · rename_i w hw
        exact stepSubAt_moves s t _ w _ _ hw h
    · split at h
      · exact Option.noConfusion h
      · rename_i w hw
        exact stepSubAt_moves s t _ w _ _ hw h

theorem Measures.Moves.counterInv {a b : Measures} (c0 : Int) (h : a.Moves b)
    (ha : CounterInv c0 a) : CounterInv c0 b := by
  unfold CounterInv at ha ⊢
  rcases h with h | h | h | h | h
  · rw [h.1, h.2.1, ha]
  · rw [h.1, h.2.1, ha]
  · rw [h.1, h.2.1, ha, wrap32_wrap32_add]
    congr 1
    push_cast
    ring
  · rw [h.1, h.2.1, ha]
  · rw [h.1, ha, wrap32_wrap32_add, ← h.2.1]
    congr 1
    push_cast
    ring

theorem Measures.Moves.linesInv {a b : Measures} (h : a.Moves b) (ha : LinesInv a) :
    LinesInv b := by
  unfold LinesInv at ha ⊢
  rcases h with h | h | h | h | h <;> omega

theorem Measures.Moves.size_le {a b : Measures} (h : a.Moves b) : a.size ≤ b.size := by
  rcases h with h | h | h | h | h <;> omega

theorem exec_counterInv (env : Env) (c0 : Int) (es : List Event) :
    ∀ (s t : State), exec env es s = some t → CounterInv c0 s.measures →
      CounterInv c0 t.measures := by
  induction es with
  | nil =>
    intro s t h hs
    simp only [exec, Option.some.injEq] at h
    subst h
    exact hs
  | cons e es ih =>
    intro s t h hs
    unfold exec at h
    split at h
    · exact Option.noConfusion h
    · rename_i u hu
      exact ih u t h ((step_moves env e s u hu).counterInv c0 hs)

theorem exec_linesInv (env : Env) (es : List Event) :
    ∀ (s t : State), exec env es s = some t → LinesInv s.measures → LinesInv t.measures := by
  induction es with
  | nil =>
    intro s t h hs
    simp only [exec, Option.some.injEq] at h
    subst h
    exact hs
  | cons e es ih =>
    intro s t h hs
    unfold exec at h
    split at h
    · exact Option.noConfusion h
    · rename_i u hu
      exact ih u t h ((step_moves env e s u hu).linesInv hs)

theorem exec_size_le (env : Env) (es : List Event) :
    ∀ (s t : State), exec env es s = some t → s.workers.length ≤ t.workers.length := by
  induction es with
  | nil =>
    intro s t h
    simp only [exec, Option.some.injEq] at h
    subst h
    exact le_refl _
  | cons e es ih =>
    intro s t h
    unfold exec at h
    split at h
    · exact Option.noConfusion h
    · rename_i u hu
      exact le_trans (step_moves env e s u hu).size_le (ih u t h)

theorem counted_split (m n : Nat) (t : State) :
    t.counted = (batchOf m n t).countP (fun w => w.pc.counted)
      + (othersOf m n t).countP (fun w => w.pc.counted) := by
  have h1 : t.workers = t.workers.take m ++ ((t.workers.drop m).take n ++ t.workers.drop (m + n)) := by
    rw [← List.drop_drop, List.take_append_drop, List.take_append_drop]
  unfold State.counted batchOf othersOf
  conv_lhs => rw [h1]
  simp only [List.countP_append]
  omega

theorem runLoadTestLoop_eq (n : Int) (baseURL jwt : Str) (fuel : Nat) :
    ∀ (i : Int) (s : State), runLoadTestLoop n baseURL jwt fuel i s =
      (loopIds n fuel i).map (fun ids => s.spawnAll ids baseURL jwt) := by
  induction fuel with
  | zero => intro i s; rfl
  | succ fuel ih =>
    intro i s
    unfold runLoadTestLoop loopIds
    split
    · rw [ih]
      cases loopIds n fuel (wrap64 (i + 1)) with
      | none => rfl
      | some ids => simp [State.spawnAll]
    · simp [State.spawnAll]

theorem runLoadTest_eq (fuel : Nat) (s : State) (n : Int) (baseURL jwt : Str) :
    runLoadTest fuel s n baseURL jwt =
      (loopIds n fuel 1).map (fun ids => s.spawnAll ids baseURL jwt) :=
  runLoadTestLoop_eq n baseURL jwt fuel 1 s

theorem stepWorkerAt_frame (s t : State) (k : Nat) (w : Worker)
    (h : stepWorkerAt s k w = some t) : s.Frame t := by
  unfold stepWorkerAt at h
  split at h
  all_goals first
    | exact Option.noConfusion h
    | (simp only [Option.some.injEq] at h; subst h
       simp [State.Frame, State.setWorker, State.print, State.add, State.promptLines,
         List.countP_append, List.countP_cons, Line.isPrompt])
    | (split at h
       · simp only [Option.some.injEq] at h; subst h
         simp [State.Frame, State.setWorker, State.promptLines]
       · exact Option.noConfusion h)

theorem stepSubAt_frame (s t : State) (k : Nat) (w : Worker) (ret : Option (Option Str))
    (data : Str) (h : stepSubAt s k w ret data = some t) : s.Frame t := by
  unfold stepSubAt at h
  split at h
  · split at h <;>
    · simp only [Option.some.injEq] at h; subst h
      simp [State.Frame, State.setWorker, State.print, State.promptLines,
        List.countP_append, List.countP_cons, Line.isPrompt]
  · exact Option.noConfusion h

theorem generateSubscriberJWT_error (sign : MapClaims → Str → Except Str Str) (now : Time)
    (secret : Str) (line : Line) (h : generateSubscriberJWT sign now secret = Except.error line) :
    ∃ err, line = Line.jwtFailed err := by
  unfold generateSubscriberJWT at h
  split at h
  · exact Except.noConfusion h
  · rename_i err _
    simp only [Except.error.injEq] at h
    exact ⟨err, h.symm⟩

theorem stepMain_after_cancel (env : Env) (input : Str) (s t : State) (hd : s.done = true)
    (h : stepMain env input s = some t) :
    t.done = true
    ∧ (if s.main.isLaunch then 1 else 0) + t.main.launchesLeft ≤ s.main.launchesLeft
    ∧ t.promptLines + t.main.promptsLeft ≤ s.promptLines + s.main.promptsLeft
    ∧ s.promptLines ≤ t.promptLines := by
  unfold stepMain at h
  split at h
  all_goals first
    | exact Option.noConfusion h
    | (simp only [Option.some.injEq] at h; subst h
       simp [hd, State.promptLines, MainPC.isLaunch, MainPC.launchesLeft, MainPC.promptsLeft,
         List.countP_append, List.countP_cons, Line.isPrompt, *])
    | (rw [runLoadTest_eq] at h
       simp only [Option.map_eq_some'] at h
       obtain ⟨t', ⟨ids, _, rfl⟩, rfl⟩ := h
       simp [hd, State.spawnAll, State.promptLines, MainPC.isLaunch, MainPC.launchesLeft,
         MainPC.promptsLeft, *])
    | (split at h <;>
       · simp only [Option.some.injEq] at h; subst h
         simp [hd, State.promptLines, MainPC.isLaunch, MainPC.launchesLeft,
           MainPC.promptsLeft, List.countP_append, List.countP_cons, Line.isPrompt, *])
    | (split at h
       · simp only [Option.some.injEq] at h; subst h
         simp [hd, State.promptLines, MainPC.isLaunch, MainPC.launchesLeft,
           MainPC.promptsLeft, *]
       · rename_i line hgen
         obtain ⟨err, rfl⟩ := generateSubscriberJWT_error _ _ _ _ hgen
         simp only [Option.some.injEq] at h; subst h
         simp [hd, State.promptLines, MainPC.isLaunch, MainPC.launchesLeft,
           MainPC.promptsLeft, List.countP_append, List.countP_cons, Line.isPrompt, *])

theorem step_after_cancel (env : Env) (e : Event) (s t : State) (hd : s.done = true)
    (h : step env e s = some t) :
    t.done = true
    ∧ (if e.isMain && s.main.isLaunch then 1 else 0) + t.main.launchesLeft
        ≤ s.main.launchesLeft
    ∧ t.promptLines + t.main.promptsLeft ≤ s.promptLines + s.main.promptsLeft
    ∧ s.promptLines ≤ t.promptLines := by
  unfold step at h
  split at h
  · exact Option.noConfusion h
  · cases e with
    | signal =>
      simp only [stepSignal] at h
      split at h <;>
      · simp only [Option.some.injEq] at h; subst h
        simp [hd, Event.isMain, State.promptLines, MainPC.launchesLeft, MainPC.promptsLeft]
    | handler =>
      simp only [stepHandler] at h
      split at h
      all_goals first
        | exact Option.noConfusion h
        | (simp only [Option.some.injEq] at h; subst h
           simp [hd, Event.isMain, State.promptLines, State.cancel, List.countP_append,
             List.countP_cons, Line.isPrompt])
        | (split at h
           · simp only [Option.some.injEq] at h; subst h
             simp [hd, Event.isMain, State.promptLines]
           · exact Option.noConfusion h)
    | main input =>
      have := stepMain_after_cancel env input s t hd h
      simpa [Event.isMain] using this
    | worker k =>
      simp only at h
      split at h
      · exact Option.noConfusion h
      · rename_i w hw
        obtain ⟨h1, h2, _, _, _, h6⟩ := stepWorkerAt_frame s t k w h
        simp [Event.isMain, h1, h2, h6, hd]
    | subMessage k data =>
      simp only at h
      split at h
      · exact Option.noConfusion h
      · rename_i w hw
        obtain ⟨h1, h2, _, _, _, h6⟩ := stepSubAt_frame s t k w _ _ h
        simp [Event.isMain, h1, h2, h6, hd]
    | subReturn k err =>
      simp only at h
      split at h
      · exact Option.noConfusion h
      · rename_i w hw
        obtain ⟨h1, h2, _, _, _, h6⟩ := stepSubAt_frame s t k w _ _ h
        simp [Event.isMain, h1, h2, h6, hd]

theorem exec_after_cancel (env : Env) (es : List Event) :
    ∀ (s t : State), s.done = true → exec env es s = some t →
      t.done = true
      ∧ loopLaunches env es s + t.main.launchesLeft ≤ s.main.launchesLeft
      ∧ t.promptLines + t.main.promptsLeft ≤ s.promptLines + s.main.promptsLeft
      ∧ s.promptLines ≤ t.promptLines := by
  induction es with
  | nil =>
    intro s t hd h
    simp only [exec, Option.some.injEq] at h
    subst h
    simp [hd, loopLaunches]
  | cons e es ih =>
    intro s t hd h
    unfold exec at h
    split at h
    · exact Option.noConfusion h
    · rename_i u hu
      obtain ⟨h1, h2, h3, h4⟩ := step_after_cancel env e s u hd hu
      obtain ⟨k1, k2, k3, k4⟩ := ih u t h1 h
      refine ⟨k1, ?_, by omega, by omega⟩
      simp only [loopLaunches, hu]
      omega

theorem exec_append (env : Env) (es1 es2 : List Event) :
    ∀ s : State, exec env (es1 ++ es2) s = (exec env es1 s).bind (exec env es2) := by
  induction es1 with
  | nil => intro s; rfl
  | cons e es ih =>
    intro s
    simp only [List.cons_append, exec]
    cases step env e s with
    | none => rfl
    | some t => exact ih t

theorem stepMain_raised (env : Env) (input : Str) (s t : State) (hs : s.Raised)
    (h : stepMain env input s = some t) :
    t.main.afterNotify = true ∧ t.handler = s.handler ∧ t.sigBuf = s.sigBuf := by
  obtain ⟨h1, _, _⟩ := hs
  unfold stepMain at h
  split at h
  all_goals first
    | exact Option.noConfusion h
    | (rename_i hm; rw [hm] at h1; exact absurd h1 (by decide))
    | (simp only [Option.some.injEq] at h; subst h
       exact ⟨rfl, rfl, rfl⟩)
    | (rw [runLoadTest_eq] at h
       simp only [Option.map_eq_some'] at h
       obtain ⟨t', ⟨ids, _, rfl⟩, rfl⟩ := h
       exact ⟨rfl, rfl, rfl⟩)
    | (split at h <;>
       · simp only [Option.some.injEq] at h; subst h
         exact ⟨rfl, rfl, rfl⟩)

theorem stepSignal_of_ne (s : State) (h : s.handler ≠ HandlerPC.absent) :
    stepSignal s = some { s with sigBuf := true } := by
  unfold stepSignal
  split
  · rename_i ha; exact absurd ha h
  · rfl

theorem step_raised (env : Env) (e : Event) (s t : State) (hs : s.Raised)
    (h : step env e s = some t) : t.Raised := by
  have hs' := hs
  obtain ⟨h1, h2, h3⟩ := hs'
  unfold step at h
  split at h
  · exact Option.noConfusion h
  · cases e with
    | signal =>
      simp only [stepSignal_of_ne s h2, Option.some.injEq] at h
      subst h
      exact ⟨h1, h2, fun _ => rfl⟩
    | handler =>
      simp only [stepHandler] at h
      split at h
      · exact Option.noConfusion h
      · split at h
        · rename_i hw hb
          simp only [Option.some.injEq] at h; subst h
          exact ⟨h1, by simp, by simp⟩
        · exact Option.noConfusion h
      · simp only [Option.some.injEq] at h; subst h
        exact ⟨h1, by simp, by simp⟩
      · simp only [Option.some.injEq] at h; subst h
        exact ⟨h1, by simp, by simp⟩
      · exact Option.noConfusion h
    | main input =>
      obtain ⟨k1, k2, k3⟩ := stepMain_raised env input s t hs h
      exact ⟨k1, by rw [k2]; exact h2, by rw [k2, k3]; exact h3⟩
    | worker k =>
      simp only at h
      split at h
      · exact Option.noConfusion h
      · rename_i w hw
        obtain ⟨k1, _, k3, k4, _, _⟩ := stepWorkerAt_frame s t k w h
        exact ⟨by rw [k1]; exact h1, by rw [k3]; exact h2, by rw [k3, k4]; exact h3⟩
    | subMessage k data =>
      simp only at h
      split at h
      · exact Option.noConfusion h
      · rename_i w hw
        obtain ⟨k1, _, k3, k4, _, _⟩ := stepSubAt_frame s t k w _ _ h
        exact ⟨by rw [k1]; exact h1, by rw [k3]; exact h2, by rw [k3, k4]; exact h3⟩
    | subReturn k err =>
      simp only at h
      split at h
      · exact Option.noConfusion h
      · rename_i w hw
        obtain ⟨k1, _, k3, k4, _, _⟩ := stepSubAt_frame s t k w _ _ h
        exact ⟨by rw [k1]; exact h1, by rw [k3]; exact h2, by rw [k3, k4]; exact h3⟩

theorem exec_raised (env : Env) (es : List Event) :
    ∀ (s t : State), s.Raised → exec env es s = some t → t.Raised := by
  induction es with
  | nil =>
    intro s t hs h
    simp only [exec, Option.some.injEq] at h
    subst h
    exact hs
  | cons e es ih =>
    intro s t hs h
    unfold exec at h
    split at h
    · exact Option.noConfusion h
    · rename_i u hu
      exact ih u t (step_raised env e s u hs hu) h

theorem stepWorkerAt_sigBuf (s : State) (k : Nat) (w : Worker) (b : Bool) :
    stepWorkerAt { s with sigBuf := b } k w
      = (stepWorkerAt s k w).map (fun t => { t with sigBuf := b }) := by
  unfold stepWorkerAt
  split
  all_goals first
    | rfl
    | (split <;> rfl)

theorem stepSubAt_sigBuf (s : State) (k : Nat) (w : Worker) (ret : Option (Option Str))
    (data : Str) (b : Bool) :
    stepSubAt { s with sigBuf := b } k w ret data
      = (stepSubAt s k w ret data).map (fun t => { t with sigBuf := b }) := by
  unfold stepSubAt
  split
  · split <;> rfl
  · rfl

theorem stepMain_sigBuf (env : Env) (input : Str) (s : State) (b : Bool) :
    stepMain env input { s with sigBuf := b }
      = (stepMain env input s).map (fun t => { t with sigBuf := b }) := by
  unfold stepMain
  dsimp only
  cases s.main
  all_goals first
    | rfl
    | (dsimp only; split <;> rfl)
    | (simp only [runLoadTest_eq]
       cases loopIds _ _ 1 <;> rfl)

theorem stepHandler_sigBuf (s : State) (b : Bool) (hw : s.handler.woken = true) :
    stepHandler { s with sigBuf := b }
      = (stepHandler s).map (fun t => { t with sigBuf := b }) := by
  unfold stepHandler
  dsimp only
  cases hh : s.handler
  all_goals first
    | rfl
    | (rw [hh] at hw; exact absurd hw (by decide))

theorem observable_set (t : State) (b : Bool) :
    ({ t with sigBuf := b } : State).observable = t.observable := rfl

theorem map_observable_set (r : Option State) (b : Bool) :
    (r.map (fun t => ({ t with sigBuf := b } : State))).map State.observable
      = r.map State.observable := by
  cases r <;> rfl

theorem step_sigBuf (env : Env) (e : Event) (s : State) (b : Bool)
    (hw : s.handler.woken = true) :
    (step env e { s with sigBuf := b }).map State.observable
      = (step env e s).map State.observable := by
  have hne : s.handler ≠ HandlerPC.absent := by
    intro h; rw [h] at hw; exact absurd hw (by decide)
  unfold step
  by_cases ht : s.main.terminated = true
  · have ht' : ({ s with sigBuf := b } : State).main.terminated = true := ht
    rw [if_pos ht, if_pos ht']
  · have ht' : ¬ ({ s with sigBuf := b } : State).main.terminated = true := ht
    rw [if_neg ht, if_neg ht']
    cases e with
    | signal =>
      simp only
      rw [stepSignal_of_ne s hne, stepSignal_of_ne _ (by exact hne)]
    | handler =>
      simp only
      rw [stepHandler_sigBuf s b hw, map_observable_set]
    | main input =>
      simp only
      rw [stepMain_sigBuf, map_observable_set]
    | worker k =>
      simp only
      cases s.workers[k]? with
      | none => rfl
      | some w =>
        simp only
        rw [stepWorkerAt_sigBuf, map_observable_set]
    | subMessage k data =>
      simp only
      cases s.workers[k]? with
      | none => rfl
      | some w =>
        simp only
        rw [stepSubAt_sigBuf, map_observable_set]
    | subReturn k err =>
      simp only
      cases s.workers[k]? with
      | none => rfl
      | some w =>
        simp only
        rw [stepSubAt_sigBuf, map_observable_set]

theorem step_woken (env : Env) (e : Event) (s t : State) (hm : s.main.afterNotify = true)
    (hw : s.handler.woken = true) (h : step env e s = some t) :
    t.main.afterNotify = true ∧ t.handler.woken = true := by
  have hne : s.handler ≠ HandlerPC.absent := by
    intro h; rw [h] at hw; exact absurd hw (by decide)
  have hnw : s.handler ≠ HandlerPC.waiting := by
    intro h; rw [h] at hw; exact absurd hw (by decide)
  have hr : s.Raised := ⟨hm, hne, fun h => absurd h hnw⟩
  refine ⟨(step_raised env e s t hr h).1, ?_⟩
  unfold step at h
  split at h
  · exact Option.noConfusion h
  · cases e with
    | signal =>
      simp only [stepSignal_of_ne s hne, Option.some.injEq] at h
      subst h
      exact hw
    | handler =>
      simp only [stepHandler] at h
      split at h
      all_goals first
        | exact Option.noConfusion h
        | (simp only [Option.some.injEq] at h; subst h; rfl)
        | (rename_i hh; exact absurd hh hnw)
    | main input =>
      rw [(stepMain_raised env input s t hr h).2.1]
      exact hw
    | worker k =>
      simp only at h
      split at h
      · exact Option.noConfusion h
      · rename_i w _
        rw [(stepWorkerAt_frame s t k w h).2.2.1]
        exact hw
    | subMessage k data =>
      simp only at h
      split at h
      · exact Option.noConfusion h
      · rename_i w _
        rw [(stepSubAt_frame s t k w _ _ h).2.2.1]
        exact hw
    | subReturn k err =>
      simp only at h
      split at h
      · exact Option.noConfusion h
      · rename_i w _
        rw [(stepSubAt_frame s t k w _ _ h).2.2.1]
        exact hw

theorem eq_set_of_observable (t' t : State) (h : t'.observable = t.observable) :
    t' = { t with sigBuf := t'.sigBuf } := by
  cases t'
  cases t
  simp only [State.observable, State.mk.injEq] at h
  simp only [State.mk.injEq]
  tauto

theorem exec_sigBuf (env : Env) (es : List Event) :
    ∀ (s : State) (b : Bool), s.main.afterNotify = true → s.handler.woken = true →
      (exec env es { s with sigBuf := b }).map State.observable
        = (exec env es s).map State.observable := by
  induction es with
  | nil => intro s b _ _; rfl
  | cons e es ih =>
    intro s b hm hw
    have hstep := step_sigBuf env e s b hw
    simp only [exec]
    cases hr : step env e s with
    | none =>
      rw [hr] at hstep
      cases hr' : step env e { s with sigBuf := b } with
      | none => rfl
      | some t' => rw [hr'] at hstep; exact Option.noConfusion hstep
    | some t =>
      rw [hr] at hstep
      cases hr' : step env e { s with sigBuf := b } with
      | none => rw [hr'] at hstep; exact Option.noConfusion hstep
      | some t' =>
        rw [hr'] at hstep
        simp only [Option.map_some', Option.some.injEq] at hstep
        obtain ⟨k1, k2⟩ := step_woken env e s t hm hw hr
        simp only
        rw [eq_set_of_observable t' t hstep]
        exact ih t _ k1 k2

theorem step_of_shuttingDown (env : Env) (e : Event) (s : State)
    (h : loopState s = LoopState.ShuttingDown) : step env e s = none := by
  unfold loopState at h
  split at h
  · rename_i hm
    simp [step, hm, MainPC.terminated]
  · exact LoopState.noConfusion h

theorem loopReturns_eq (env : Env) (es : List Event) :
    ∀ (s t : State), exec env es s = some t →
      loopReturns env es s
        = if loopState s = LoopState.Prompting ∧ loopState t = LoopState.ShuttingDown then 1
          else 0 := by
  induction es with
  | nil =>
    intro s t h
    simp only [exec, Option.some.injEq] at h
    subst h
    cases hs : loopState s <;> simp [loopReturns]
  | cons e es ih =>
    intro s t h
    unfold exec at h
    split at h
    · exact Option.noConfusion h
    · rename_i u hu
      have hs : loopState s = LoopState.Prompting := by
        cases hs : loopState s with
        | Prompting => rfl
        | ShuttingDown => rw [step_of_shuttingDown env e s hs] at hu; exact Option.noConfusion hu
      simp only [loopReturns, hu, hs, true_and]
      cases hl : loopState u with
      | Prompting =>
        rw [ih u t h, hl]
        simp
      | ShuttingDown =>
        cases es with
        | nil =>
          simp only [exec, Option.some.injEq] at h
          subst h
          simp [loopReturns, hl]
        | cons e' es' =>
          simp only [exec, step_of_shuttingDown env e' u hl] at h
          exact Option.noConfusion h

theorem step_shuttingDown_done (env : Env) (e : Event) (s u : State)
    (h : step env e s = some u) (hs : loopState s = LoopState.Prompting)
    (hu : loopState u = LoopState.ShuttingDown) : u.done = true := by
  have hum : u.main = MainPC.returned := by
    unfold loopState at hu
    split at hu
    · assumption
    · exact LoopState.noConfusion hu
  have hsm : s.main ≠ MainPC.returned := by
    intro hc
    simp [loopState, hc] at hs
  unfold step at h
  split at h
  · exact Option.noConfusion h
  · cases e with
    | signal =>
      simp only [stepSignal] at h
      split at h <;>
      · simp only [Option.some.injEq] at h; subst h
        first
          | exact MainPC.noConfusion hum
          | exact absurd hum hsm
    | handler =>
      simp only [stepHandler] at h
      split at h
      all_goals first
        | exact Option.noConfusion h
        | (simp only [Option.some.injEq] at h; subst h; exact absurd hum hsm)
        | (split at h
           · simp only [Option.some.injEq] at h; subst h; exact absurd hum hsm
           · exact Option.noConfusion h)
    | main input =>
      simp only at h
      unfold stepMain at h
      split at h
      all_goals first
        | exact Option.noConfusion h
        | (simp only [Option.some.injEq] at h; subst h; exact MainPC.noConfusion hum)
        | (rw [runLoadTest_eq] at h
           simp only [Option.map_eq_some'] at h
           obtain ⟨t', ⟨ids, _, rfl⟩, rfl⟩ := h
           exact MainPC.noConfusion hum)
        | (split at h <;>
           · simp only [Option.some.injEq] at h; subst h
             first
               | exact MainPC.noConfusion hum
               | assumption)
    | worker k =>
      simp only at h
      split at h
      · exact Option.noConfusion h
      · rename_i w _
        rw [(stepWorkerAt_frame s u k w h).1] at hum
        exact absurd hum hsm
    | subMessage k data =>
      simp only at h
      split at h
      · exact Option.noConfusion h
      · rename_i w _
        rw [(stepSubAt_frame s u k w _ _ h).1] at hum
        exact absurd hum hsm
    | subReturn k err =>
      simp only at h
      split at h
      · exact Option.noConfusion h
      · rename_i w _
        rw [(stepSubAt_frame s u k w _ _ h).1] at hum
        exact absurd hum hsm

theorem exec_shuttingDown_done (env : Env) (es : List Event) :
    ∀ (s t : State), exec env es s = some t → loopState s = LoopState.Prompting →
      loopState t = LoopState.ShuttingDown → t.done = true := by
  induction es with
  | nil =>
    intro s t h hs ht
    simp only [exec, Option.some.injEq] at h
    subst h
    rw [hs] at ht
    exact LoopState.noConfusion ht
  | cons e es ih =>
    intro s t h hs ht
    unfold exec at h
    split at h
    · exact Option.noConfusion h
    · rename_i u hu
      cases hl : loopState u with
      | Prompting => exact ih u t h hl ht
      | ShuttingDown =>
        cases es with
        | nil =>
          simp only [exec, Option.some.injEq] at h
          subst h
          exact step_shuttingDown_done env e s u hu hs hl
        | cons e' es' =>
          simp only [exec, step_of_shuttingDown env e' u hl] at h
          exact Option.noConfusion h

theorem signal_twice (env : Env) (s : State) (es1 es2 : List Event) (t2 : State)
    (hh : s.handler ≠ HandlerPC.absent) (hm : s.main.afterNotify = true)
    (h : exec env (Event.signal :: (es1 ++ Event.signal :: es2)) s = some t2) :
    ∃ t1, exec env (Event.signal :: (es1 ++ es2)) s = some t1
      ∧ t1.observable = t2.observable := by
  simp only [exec] at h ⊢
  by_cases ht : s.main.terminated = true
  · simp [step, ht] at h
  · have hstep : step env Event.signal s = some { s with sigBuf := true } := by
      simp only [step, if_neg ht, stepSignal_of_ne s hh]
    rw [hstep] at h ⊢
    simp only at h ⊢
    have hr1 : ({ s with sigBuf := true } : State).Raised := ⟨hm, hh, fun _ => rfl⟩
    rw [exec_append] at h ⊢
    cases hu : exec env es1 { s with sigBuf := true } with
    | none => rw [hu] at h; exact Option.noConfusion h
    | some u =>
      rw [hu] at h
      simp only [Option.some_bind, exec] at h ⊢
      have hru := exec_raised env es1 _ u hr1 hu
      by_cases htu : u.main.terminated = true
      · simp [step, htu] at h
      · have hstepu : step env Event.signal u = some { u with sigBuf := true } := by
          simp only [step, if_neg htu, stepSignal_of_ne u hru.2.1]
        rw [hstepu] at h
        simp only at h
        by_cases hw : u.handler = HandlerPC.waiting
        · have hb := hru.2.2 hw
          have hsame : ({ u with sigBuf := true } : State) = u := by
            cases u
            simp only at hb
            subst hb
            rfl
          rw [hsame] at h
          exact ⟨t2, h, rfl⟩
        · have hwoken : u.handler.woken = true := by
            have hna := hru.2.1
            cases hc : u.handler <;> simp_all [HandlerPC.woken]
          have hsim := exec_sigBuf env es2 u true hru.1 hwoken
          rw [h] at hsim
          cases hv : exec env es2 u with
          | none => rw [hv] at hsim; exact Option.noConfusion hsim
          | some t1 =>
            rw [hv] at hsim
            simp only [Option.map_some', Option.some.injEq] at hsim
            exact ⟨t1, rfl, hsim.symm⟩

theorem digitVal_eq (c : Char) :
    digitVal c = if isDecimalDigit c = true then some (c.toNat - 48) else none := by
  unfold digitVal isDecimalDigit
  by_cases h : 48 ≤ c.toNat ∧ c.toNat ≤ 57 <;> simp [h]

theorem decimalValue_cons (c : Char) (ds : Str) :
    decimalValue (c :: ds) = (c.toNat - 48) * 10 ^ ds.length + decimalValue ds := by
  unfold decimalValue
  simp only [List.map_cons, List.reverse_cons, Nat.ofDigits_append, Nat.ofDigits_singleton,
    List.length_reverse, List.length_map]
  ring

theorem parseDigits_of_digits (ds : Str) :
    ∀ n : Nat, (∀ c ∈ ds, isDecimalDigit c = true) →
      parseDigits ds n = some (n * 10 ^ ds.length + decimalValue ds) := by
  induction ds with
  | nil => intro n _; simp [parseDigits, decimalValue]
  | cons c ds ih =>
    intro n h
    have hc : isDecimalDigit c = true := h c (List.mem_cons_self _ _)
    have hds : ∀ d ∈ ds, isDecimalDigit d = true := fun d hd => h d (List.mem_cons_of_mem _ hd)
    simp only [parseDigits, digitVal_eq, hc, if_true]
    rw [ih _ hds, decimalValue_cons]
    congr 1
    simp only [List.length_cons, pow_succ]
    ring

theorem digits_of_parseDigits (ds : Str) :
    ∀ (n v : Nat), parseDigits ds n = some v → ∀ c ∈ ds, isDecimalDigit c = true := by
  induction ds with
  | nil => intro n v _ c hc; simp at hc
  | cons d ds ih =>
    intro n v h c hc
    simp only [parseDigits, digitVal_eq] at h
    by_cases hd : isDecimalDigit d = true
    · simp only [hd, if_true] at h
      rcases List.mem_cons.mp hc with rfl | hc'
      · exact hd
      · exact ih _ v h c hc'
    · simp [hd] at h

theorem Atoi_minus (rest : Str) :
    Atoi ('-' :: rest) =
      if rest = [] then none
      else match parseDigits rest 0 with
        | none => none
        | some un => if (2 : Int) ^ 63 < un then none else some (-(un : Int)) := by
  simp only [Atoi, true_or, if_true, not_true_eq_false, false_and, if_false, true_and]

theorem Atoi_plus (rest : Str) :
    Atoi ('+' :: rest) =
      if rest = [] then none
      else match parseDigits rest 0 with
        | none => none
        | some un => if (2 : Int) ^ 63 ≤ un then none else some (un : Int) := by
  have h : ¬ ('+' = '-') := by decide
  simp only [Atoi, h, or_true, if_true, not_false_eq_true, true_and, false_and, if_false]

theorem Atoi_other (c : Char) (rest : Str) (hm : c ≠ '-') (hp : c ≠ '+') :
    Atoi (c :: rest) =
      match parseDigits (c :: rest) 0 with
      | none => none
      | some un => if (2 : Int) ^ 63 ≤ un then none else some (un : Int) := by
  simp only [Atoi, hm, hp, or_self, if_false, not_false_eq_true, true_and, false_and,
    reduceCtorEq]

theorem decimalValue_of_parse (ds : Str) (un : Nat) (h : parseDigits ds 0 = some un) :
    (∀ c ∈ ds, isDecimalDigit c = true) ∧ decimalValue ds = un := by
  have hd := digits_of_parseDigits ds 0 un h
  rw [parseDigits_of_digits ds 0 hd] at h
  simp only [zero_mul, zero_add, Option.some.injEq] at h
  exact ⟨hd, h⟩

theorem Atoi_some_iff (s : Str) (n : Int) :
    Atoi s = some n ↔ IsSignedDecimal s n ∧ minInt64 ≤ n ∧ n ≤ maxInt64 := by
  constructor
  · intro h
    cases s with
    | nil => simp [Atoi] at h
    | cons c rest =>
      by_cases hm : c = '-'
      · subst hm
        rw [Atoi_minus] at h
        split at h
        · exact Option.noConfusion h
        · rename_i hne
          split at h
          · exact Option.noConfusion h
          · rename_i un hun
            obtain ⟨hd, hv⟩ := decimalValue_of_parse rest un hun
            split at h
            · exact Option.noConfusion h
            · rename_i hr
              simp only [Option.some.injEq] at h
              subst h
              refine ⟨⟨rest, hne, hd, Or.inr (Or.inr ⟨rfl, by rw [hv]⟩)⟩, ?_, ?_⟩
              · unfold minInt64; omega
              · unfold maxInt64; omega
      · by_cases hp : c = '+'
        · subst hp
          rw [Atoi_plus] at h
          split at h
          · exact Option.noConfusion h
          · rename_i hne
            split at h
            · exact Option.noConfusion h
            · rename_i un hun
              obtain ⟨hd, hv⟩ := decimalValue_of_parse rest un hun
              split at h
              · exact Option.noConfusion h
              · rename_i hr
                simp only [Option.some.injEq] at h
                subst h
                refine ⟨⟨rest, hne, hd, Or.inr (Or.inl ⟨rfl, by rw [hv]⟩)⟩, ?_, ?_⟩
                · unfold minInt64; omega
                · unfold maxInt64; omega
        · rw [Atoi_other c rest hm hp] at h
          split at h
          · exact Option.noConfusion h
          · rename_i un hun
            obtain ⟨hd, hv⟩ := decimalValue_of_parse (c :: rest) un hun
            split at h
            · exact Option.noConfusion h
            · rename_i hr
              simp only [Option.some.injEq] at h
              subst h
              refine ⟨⟨c :: rest, by simp, hd, Or.inl ⟨rfl, by rw [hv]⟩⟩, ?_, ?_⟩
              · unfold minInt64; omega
              · unfold maxInt64; omega
  · rintro ⟨⟨ds, hne, hd, hcase⟩, hlo, hhi⟩
    unfold minInt64 at hlo
    unfold maxInt64 at hhi
    have hparse := parseDigits_of_digits ds 0 hd
    simp only [zero_mul, zero_add] at hparse
    rcases hcase with ⟨rfl, rfl⟩ | ⟨rfl, rfl⟩ | ⟨rfl, rfl⟩
    · cases s with
      | nil => exact absurd rfl hne
      | cons c rest =>
        have hc : isDecimalDigit c = true := hd c (List.mem_cons_self _ _)
        have hm : c ≠ '-' := by rintro rfl; exact absurd hc (by decide)
        have hp : c ≠ '+' := by rintro rfl; exact absurd hc (by decide)
        rw [Atoi_other c rest hm hp, hparse]
        simp only
        rw [if_neg (by omega)]
    · rw [Atoi_plus, if_neg hne, hparse]
      simp only
      rw [if_neg (by omega)]
    · rw [Atoi_minus, if_neg hne, hparse]
      simp only
      rw [if_neg (by omega)]

theorem iteration_parsed (env : Env) (s : State) (input : Str) (hm : s.main = MainPC.select)
    (hd : s.done = false) :
    exec env (iteration input) s =
      match Atoi (TrimSpace input) with
      | some n =>
        some { s with out := s.out ++ [Line.mainTotal s.totalConnections, Line.prompt, Line.adding n],
                      main := MainPC.launch n }
      | none =>
        some { s with out := s.out ++ [Line.mainTotal s.totalConnections, Line.prompt, Line.invalid],
                      main := MainPC.select } := by
  cases ha : Atoi (TrimSpace input) <;>
    simp [iteration, List.replicate, exec, step, stepMain, hm, hd, MainPC.terminated, ha]

theorem runLoadTestLoop_diverges (n : Int) (hn : maxInt64 ≤ n) (baseURL jwt : Str)
    (fuel : Nat) :
    ∀ (i : Int) (s : State), i ≤ maxInt64 →
      runLoadTestLoop n baseURL jwt fuel i s = none := by
  induction fuel with
  | zero => intro i s _; rfl
  | succ fuel ih =>
    intro i s hi
    unfold runLoadTestLoop
    rw [if_pos (le_trans hi hn)]
    exact ih _ _ (wrap64_le _)

theorem runLoadTest_returns (fuel : Nat) (s t : State) (count : Int) (baseURL jwt : Str)
    (h : runLoadTest fuel s count baseURL jwt = some t) : count < maxInt64 := by
  by_contra hc
  unfold runLoadTest at h
  rw [runLoadTestLoop_diverges count (not_lt.mp hc) baseURL jwt fuel 1 s (by decide)] at h
  exact Option.noConfusion h

theorem lt_length_of_getElem? {α : Type} (l : List α) (k : Nat) (a : α) (h : l[k]? = some a) :
    k < l.length := by
  by_contra hc
  rw [List.getElem?_eq_none (not_lt.mp hc)] at h
  exact Option.noConfusion h

theorem step_worker (env : Env) (s : State) (k : Nat) (w : Worker)
    (hterm : s.main.terminated = false) (hw : s.workers[k]? = some w) :
    step env (Event.worker k) s = stepWorkerAt s k w := by
  simp [step, hterm, hw]

theorem establish_exec (env : Env) (s : State) (k : Nat) (w : Worker)
    (hterm : s.main.terminated = false) (hw : s.workers[k]? = some w)
    (hpc : w.pc = WorkerPC.setup) :
    ∃ (t : State) (w' : Worker), exec env (establish k) s = some t ∧ t.main = s.main
      ∧ t.totalConnections = wrap32 (s.totalConnections + 1)
      ∧ t.workers = s.workers.set k w' ∧ w'.pc = WorkerPC.logTotal := by
  have hk := lt_length_of_getElem? _ k w hw
  have h1 : step env (Event.worker k) s
      = some (s.setWorker k
          { w with client := some (workerClient w.connectionID w.baseURL w.subscriberJWT),
                   sub := SubPC.subscribing, pc := WorkerPC.logEstablished }) := by
    rw [step_worker env s k w hterm hw]
    simp [stepWorkerAt, hpc]
  generalize hw1 : ({ w with
      client := some (workerClient w.connectionID w.baseURL w.subscriberJWT),
      sub := SubPC.subscribing, pc := WorkerPC.logEstablished } : Worker) = w1 at h1
  have hpc1 : w1.pc = WorkerPC.logEstablished := by rw [← hw1]
  have h2 : step env (Event.worker k) (s.setWorker k w1)
      = some (((s.setWorker k w1).print
          (Line.established w1.connectionID (workerTopic w1.connectionID))).setWorker k
          { w1 with pc := WorkerPC.addOne }) := by
    have hw1' : (s.setWorker k w1).workers[k]? = some w1 := List.getElem?_set_self hk
    rw [step_worker env (s.setWorker k w1) k w1 hterm hw1']
    simp [stepWorkerAt, hpc1]
  generalize hs2 : (((s.setWorker k w1).print
      (Line.established w1.connectionID (workerTopic w1.connectionID))).setWorker k
      { w1 with pc := WorkerPC.addOne }) = s2 at h2
  have hs2w : s2.workers[k]? = some { w1 with pc := WorkerPC.addOne } := by
    rw [← hs2]
    exact List.getElem?_set_self (by simp [State.setWorker, State.print, hk])
  have hs2m : s2.main.terminated = false := by rw [← hs2]; exact hterm
  have h3 : step env (Event.worker k) s2
      = some ((s2.add 1).setWorker k { w1 with pc := WorkerPC.logTotal }) := by
    rw [step_worker env s2 k _ hs2m hs2w]
    simp [stepWorkerAt]
  refine ⟨(s2.add 1).setWorker k { w1 with pc := WorkerPC.logTotal },
    { w1 with pc := WorkerPC.logTotal }, ?_, ?_, ?_, ?_, rfl⟩
  · simp only [establish, exec, h1, h2, h3]
  · rw [← hs2]; rfl
  · rw [← hs2]; rfl
  · rw [← hs2]
    simp [State.setWorker, State.print, State.add, List.set_set]

theorem establishRange_exec (env : Env) (s : State) (m : Nat)
    (hterm : s.main.terminated = false) (hc : wrap32 s.totalConnections = s.totalConnections)
    (n : Nat) :
    (∀ j, m ≤ j → j < m + n → ∃ w, s.workers[j]? = some w ∧ w.pc = WorkerPC.setup) →
    ∃ t : State, exec env (establishRange m n) s = some t ∧ t.main = s.main
      ∧ t.totalConnections = wrap32 (s.totalConnections + (n : Int))
      ∧ t.workers.length = s.workers.length
      ∧ (∀ j, m ≤ j → j < m + n → ∃ w, t.workers[j]? = some w ∧ w.pc = WorkerPC.logTotal)
      ∧ (∀ j, (j < m ∨ m + n ≤ j) → t.workers[j]? = s.workers[j]?) := by
  induction n with
  | zero =>
    intro _
    exact ⟨s, rfl, rfl, by simp [hc], rfl, fun j h1 h2 => by omega, fun j _ => rfl⟩
  | succ n ih =>
    intro hsetup
    obtain ⟨t1, he1, hm1, hc1, hl1, hin1, hout1⟩ :=
      ih (fun j h1 h2 => hsetup j h1 (by omega))
    obtain ⟨w, hw, hpc⟩ := hsetup (m + n) (by omega) (by omega)
    rw [← hout1 (m + n) (Or.inr (le_refl _))] at hw
    obtain ⟨t, w', he, hm, hc2, hws, hpc'⟩ :=
      establish_exec env t1 (m + n) w (by rw [hm1]; exact hterm) hw hpc
    have hk := lt_length_of_getElem? _ _ w hw
    refine ⟨t, ?_, by rw [hm, hm1], ?_, by rw [hws, List.length_set, hl1], ?_, ?_⟩
    · simp only [establishRange]
      rw [exec_append, he1]
      exact he
    · rw [hc2, hc1, wrap32_wrap32_add]
      congr 1
      push_cast
      ring
    · intro j h1 h2
      by_cases hj : j = m + n
      · subst hj
        exact ⟨w', by rw [hws]; exact List.getElem?_set_self hk, hpc'⟩
      · rw [hws, List.getElem?_set_ne (Ne.symm hj)]
        exact hin1 j h1 (by omega)
    · intro j hj
      rw [hws, List.getElem?_set_ne (by omega)]
      exact hout1 j (by omega)

theorem batch_getElem? (count : Int) (baseURL jwt : Str) (k : Nat) (hk : k < count.toNat) :
    (batch count baseURL jwt)[k]? = some (Worker.spawn ((k : Int) + 1) baseURL jwt) := by
  simp [batch, List.getElem?_map, List.getElem?_range hk]

theorem launch_and_establish (env : Env) (s : State) (count : Int) (m n : Nat)
    (hcount : 0 ≤ count ∧ count < maxInt64) (hm : s.main = MainPC.launch count)
    (hc : wrap32 s.totalConnections = s.totalConnections)
    (hlen : s.workers.length = m) (hn : count.toNat = n) :
    ∃ t : State,
      exec env (mainStep :: establishRange m n) s = some t
      ∧ t.totalConnections = wrap32 (s.totalConnections + count)
      ∧ t.workers.length = m + n
      ∧ (∀ j, m ≤ j → j < m + n → ∃ w, t.workers[j]? = some w ∧ w.pc = WorkerPC.logTotal)
      ∧ (∀ j, j < m → t.workers[j]? = s.workers[j]?) := by
  subst hlen
  subst hn
  have hstep : step env mainStep s
      = some { s with workers := s.workers ++ batch count env.baseURL s.subscriberJWT,
                      main := MainPC.select } := by
    simp only [mainStep, step, hm, MainPC.terminated, stepMain]
    rw [runLoadTest_spawns _ s count _ _ hcount.2 (le_refl _)]
    rfl
  obtain ⟨t, he, _, htc, hlen, hin, hout⟩ := establishRange_exec env
    { s with workers := s.workers ++ batch count env.baseURL s.subscriberJWT,
             main := MainPC.select } s.workers.length rfl hc count.toNat (by
      intro j h1 h2
      refine ⟨Worker.spawn (((j - s.workers.length : Nat) : Int) + 1) env.baseURL
        s.subscriberJWT, ?_, rfl⟩
      show (s.workers ++ batch count env.baseURL s.subscriberJWT)[j]?
        = some (Worker.spawn (((j - s.workers.length : Nat) : Int) + 1) env.baseURL
            s.subscriberJWT)
      rw [List.getElem?_append_right h1, batch_getElem? _ _ _ _ (by omega)])
  refine ⟨t, ?_, ?_, ?_, hin, ?_⟩
  · simp only [exec, hstep]
    exact he
  · rw [htc]
    congr 1
    show s.totalConnections + ((count.toNat : Nat) : Int) = s.totalConnections + count
    rw [Int.toNat_of_nonneg hcount.1]
  · rw [hlen]
    simp [batch]
  · intro j hj
    rw [hout j (Or.inl hj)]
    exact List.getElem?_append_left hj

/-! ## The claims -/

/-- C1, as amended: for every `count` below the largest `int`, `runLoadTest`
returns (given fuel for its `max(count, 0) + 1` loop tests) and has started
exactly the workers with the ids `1, 2, ..., count`, in this order and each
once, that is `max(count, 0)` workers, none when `count <= 0`; nothing else
in the state has changed. -/
theorem runLoadTest_spawns_exactly (fuel : Nat) (s : State) (count : Int)
    (baseURL subscriberJWT : Str) (hcount : count < maxInt64) (hfuel : callFuel count ≤ fuel) :
    runLoadTest fuel s count baseURL subscriberJWT
        = some { s with workers := s.workers ++ batch count baseURL subscriberJWT }
    ∧ (batch count baseURL subscriberJWT).map Worker.connectionID
        = (List.range count.toNat).map (fun (k : Nat) => (k : Int) + 1)
    ∧ ((batch count baseURL subscriberJWT).length : Int) = max count 0
    ∧ (count ≤ 0 → batch count baseURL subscriberJWT = []) := by
  refine ⟨runLoadTest_spawns fuel s count baseURL subscriberJWT hcount hfuel, ?_, ?_, ?_⟩
  · simp [batch, Worker.spawn, Function.comp_def]
  · simp only [batch, List.length_map, List.length_range]
    omega
  · intro h
    have hz : count.toNat = 0 := by omega
    simp [batch, hz]

/-- C1, witness: three connections asked for, workers 1, 2 and 3 started. -/
theorem runLoadTest_spawns_exactly_witness :
    runLoadTest 4 init 3 "u".toList "t".toList
        = some { init with workers := init.workers ++ batch 3 "u".toList "t".toList }
    ∧ (batch 3 "u".toList "t".toList).map Worker.connectionID = [1, 2, 3] :=
  ⟨(runLoadTest_spawns_exactly 4 init 3 "u".toList "t".toList (by decide) (by decide)).1,
    by decide⟩

/-- C1 as stated fails at `count = 2^63 - 1`, the value `Atoi` returns for the
line "9223372036854775807": `i++` wraps, the test `i <= numConnections` never
fails, and the call does not return whatever the fuel. -/
theorem runLoadTest_maxInt_never_returns :
    Atoi "9223372036854775807".toList = some maxInt64
    ∧ ¬ ∃ (fuel : Nat) (t : State), runLoadTest fuel init maxInt64 [] [] = some t := by
  refine ⟨by decide, ?_⟩
  rintro ⟨fuel, t, h⟩
  unfold runLoadTest at h
  rw [runLoadTestLoop_maxInt [] [] fuel 1 init (by decide)] at h
  exact Option.noConfusion h

/-- C2, the code at the failing input: the first worker's `SubscribeRaw`
returns an error and the failure line is printed, and yet the worker prints
its "established" line and runs `Add(1)` (the counter is 1, where the claim
says that a failed worker never increments); once the context is cancelled
it runs `Add(-1)` as well (where the claim says it never decrements). -/
theorem failed_worker_is_counted :
    (exec demoEnv failingRun init).map
        (fun s => (s.workers.map Worker.sub, s.workers.map Worker.pc, s.totalConnections,
          s.out))
      = some ([SubPC.failed "refused".toList], [WorkerPC.logTotal], 1,
          [Line.starting, Line.testingInitial, Line.failed 1 "refused".toList,
            Line.established 1 "test-topic-1".toList])
    ∧ (exec demoEnv (failingRun ++ interrupt ++ [worker0, worker0, worker0, worker0]) init).map
        (fun s => (s.workers.map Worker.sub, s.workers.map Worker.pc, s.totalConnections))
      = some ([SubPC.failed "refused".toList], [WorkerPC.finished], 0) := by
  decide

/-- C3, as amended: let the counter hold an `int32` value `c` and let
`runLoadTest` start `count >= 0` workers. In any later state in which the
workers outside the batch count as they did before the launch: once every
worker of the batch has run its `Add(1)` and not yet its `Add(-1)`, the counter
is `c + count` wrapped to 32 bits, which is `c + count` whenever
`c + count <= 2^31 - 1`; and once every worker of the batch has finished
(observed the cancellation and run its `Add(-1)`), the counter is `c` again. -/
theorem batch_counter (env : Env) (s0 s1 t : State) (count : Int) (baseURL subscriberJWT : Str)
    (es : List Event)
    (hc : minInt32 ≤ s0.totalConnections ∧ s0.totalConnections ≤ maxInt32)
    (hcount : 0 ≤ count)
    (hlaunch : runLoadTest (callFuel count) s0 count baseURL subscriberJWT = some s1)
    (hrun : exec env es s1 = some t)
    (hothers : (othersOf s0.workers.length count.toNat t).countP (fun w => w.pc.counted)
      = s0.counted) :
    ((∀ w ∈ batchOf s0.workers.length count.toNat t, w.pc.counted = true) →
        t.totalConnections = wrap32 (s0.totalConnections + count)
        ∧ (s0.totalConnections + count ≤ maxInt32 →
            t.totalConnections = s0.totalConnections + count))
    ∧ ((∀ w ∈ batchOf s0.workers.length count.toNat t, w.pc = WorkerPC.finished) →
        t.totalConnections = s0.totalConnections) := by
  have hlt := runLoadTest_returns _ _ _ _ _ _ hlaunch
  rw [runLoadTest_spawns _ s0 count baseURL subscriberJWT hlt (le_refl _)] at hlaunch
  simp only [Option.some.injEq] at hlaunch
  subst hlaunch
  have hb : (batch count baseURL subscriberJWT).countP (fun w => w.pc.counted) = 0 :=
    List.countP_eq_zero.mpr (by
      intro w hw
      simp only [batch, List.mem_map] at hw
      obtain ⟨k, _, rfl⟩ := hw
      simp [Worker.spawn, WorkerPC.counted])
  have hlen : (batch count baseURL subscriberJWT).length = count.toNat := by simp [batch]
  have hinv := exec_counterInv env (s0.totalConnections - (s0.counted : Int)) es _ t hrun (by
    simp only [CounterInv, State.measures, State.counted, List.countP_append, hb]
    simp [wrap32_of_range _ hc.1 hc.2])
  have hsize := exec_size_le env es _ t hrun
  simp only [List.length_append, hlen] at hsize
  simp only [CounterInv, State.measures] at hinv
  have hsplit := counted_split s0.workers.length count.toNat t
  rw [hothers] at hsplit
  constructor
  · intro hall
    have hcnt : (batchOf s0.workers.length count.toNat t).countP (fun w => w.pc.counted)
        = count.toNat := by
      rw [List.countP_eq_length.mpr (by simpa using hall)]
      simp only [batchOf, List.length_take, List.length_drop]
      omega
    have hval : t.totalConnections = wrap32 (s0.totalConnections + count) := by
      rw [hinv, hsplit, hcnt]
      congr 1
      push_cast
      rw [Int.toNat_of_nonneg hcount]
      ring
    refine ⟨hval, fun hle => ?_⟩
    rw [hval]
    exact wrap32_of_range _ (by linarith [hc.1, hcount]) hle
  · intro hall
    have hcnt : (batchOf s0.workers.length count.toNat t).countP (fun w => w.pc.counted) = 0 :=
      List.countP_eq_zero.mpr (by
        intro w hw
        simp [hall w hw, WorkerPC.counted])
    rw [hinv, hsplit, hcnt]
    simp [wrap32_of_range _ hc.1 hc.2]

/-- C3, witness: two workers started at the top of the loop (counter 0, the
smoke-test worker not yet running); the counter is 2 once both are
established, and 0 again once the signal was raised and both have finished. -/
theorem batch_counter_witness :
    (runFrom (loopStart.spawnAll [1, 2] [] "token".toList) twoEstablished).totalConnections
        = loopStart.totalConnections + 2
    ∧ (runFrom (loopStart.spawnAll [1, 2] [] "token".toList) twoFinished).totalConnections
        = loopStart.totalConnections :=
  ⟨((batch_counter demoEnv loopStart (loopStart.spawnAll [1, 2] [] "token".toList)
        (runFrom (loopStart.spawnAll [1, 2] [] "token".toList) twoEstablished) 2 []
        "token".toList twoEstablished (by decide) (by decide) (by decide) (by decide)
        (by decide)).1 (by decide)).2 (by decide),
    (batch_counter demoEnv loopStart (loopStart.spawnAll [1, 2] [] "token".toList)
        (runFrom (loopStart.spawnAll [1, 2] [] "token".toList) twoFinished) 2 []
        "token".toList twoFinished (by decide) (by decide) (by decide) (by decide)
        (by decide)).2 (by decide)⟩

/-- C3 as stated fails in three ways, each in a run from the start of the
process. (1) The operator asks for 2 connections while the counter is 0; once
the two workers and the smoke-test worker are established the counter is 3,
not `0 + 2`. (2) Once the two workers of the batch have observed the
cancellation and stand at line 96, the counter is still 2, not 0 again. (3) The
operator asks for 2147483648 connections while the counter is 0; once all of
these workers are established the counter is `-2^31`, not `0 + 2^31`. -/
theorem batch_counter_fails :
    ((exec demoEnv (startUp ++ iteration "2\n".toList) init).map
        (fun s => (s.totalConnections, s.main)) = some (0, MainPC.launch 2)
      ∧ (exec demoEnv (startUp ++ iteration "2\n".toList
            ++ mainStep :: (establish 0 ++ establishRange 1 2)) init).map
          (fun t => (t.workers.map Worker.pc, t.totalConnections))
        = some ([WorkerPC.logTotal, WorkerPC.logTotal, WorkerPC.logTotal], 3))
    ∧ (exec demoEnv (startUp ++ iteration "2\n".toList
          ++ mainStep :: (establishRange 1 2 ++ interrupt
            ++ [Event.worker 1, Event.worker 1, Event.worker 2, Event.worker 2])) init).map
        (fun t => (t.done, t.workers.map Worker.pc, t.totalConnections))
      = some (true, [WorkerPC.setup, WorkerPC.logShutdown, WorkerPC.logShutdown], 2)
    ∧ ((exec demoEnv (startUp ++ iteration "2147483648\n".toList) init).map
        (fun s => (s.totalConnections, s.main)) = some (0, MainPC.launch 2147483648)
      ∧ ∃ t : State,
          exec demoEnv (startUp ++ iteration "2147483648\n".toList
            ++ mainStep :: establishRange 1 2147483648) init = some t
          ∧ t.workers.length = 1 + 2147483648
          ∧ (∀ j, 1 ≤ j → j < 1 + 2147483648 →
              ∃ w, t.workers[j]? = some w ∧ w.pc = WorkerPC.logTotal)
          ∧ t.workers[0]? = some (Worker.spawn 1 [] "token".toList)
          ∧ t.totalConnections = -2147483648) := by
  refine ⟨by decide, by decide, by decide, ?_⟩
  have hpre : exec demoEnv (startUp ++ iteration "2147483648\n".toList) init
      = some { loopStart with
          out := loopStart.out ++ [Line.mainTotal 0, Line.prompt, Line.adding 2147483648],
          main := MainPC.launch 2147483648 } := by decide
  obtain ⟨t, he, htc, hlen, hin, hout⟩ := launch_and_establish demoEnv
    { loopStart with
      out := loopStart.out ++ [Line.mainTotal 0, Line.prompt, Line.adding 2147483648],
      main := MainPC.launch 2147483648 } 2147483648 1 2147483648 (by decide) rfl (by decide)
    rfl rfl
  refine ⟨t, ?_, hlen, hin, ?_, ?_⟩
  · rw [exec_append, hpre, Option.some_bind]
    exact he
  · rw [hout 0 (by decide)]
    rfl
  · rw [htc]
    decide

/-- C4, as amended: in every reachable state the counter is the number of
workers between their `Add(1)` and their `Add(-1)`, wrapped to 32 bits. That
number is the number of workers between their "established" and their
"shutting down" line, less the workers that stand at line 91 (line printed,
not yet added) and plus the workers that stand at line 97 (line printed, not
yet subtracted). -/
theorem counter_invariant (env : Env) (es : List Event) (s : State)
    (h : exec env es init = some s) :
    s.totalConnections = wrap32 (s.counted : Int)
    ∧ (s.counted : Int)
        = s.betweenLines - (s.at WorkerPC.addOne : Int) + (s.at WorkerPC.subOne : Int)
    ∧ s.totalConnections
        = wrap32 (s.betweenLines - (s.at WorkerPC.addOne : Int) + (s.at WorkerPC.subOne : Int)) := by
  have h1 := exec_counterInv env 0 es init s h (by unfold CounterInv; decide)
  have h2 := exec_linesInv env es init s h (by unfold LinesInv; decide)
  unfold CounterInv at h1
  unfold LinesInv at h2
  simp only [State.measures, zero_add] at h1 h2
  have h3 : (s.counted : Int)
      = s.betweenLines - (s.at WorkerPC.addOne : Int) + (s.at WorkerPC.subOne : Int) := by
    unfold State.betweenLines
    omega
  exact ⟨h1, h3, by rw [← h3]; exact h1⟩

/-- C4, witness: start-up, then the first worker up to its "established" line. -/
theorem counter_invariant_witness :
    (reach (startUp ++ [worker0, worker0])).totalConnections
        = wrap32 ((reach (startUp ++ [worker0, worker0])).counted : Int)
    ∧ ((reach (startUp ++ [worker0, worker0])).counted : Int)
        = (reach (startUp ++ [worker0, worker0])).betweenLines
          - ((reach (startUp ++ [worker0, worker0])).at WorkerPC.addOne : Int)
          + ((reach (startUp ++ [worker0, worker0])).at WorkerPC.subOne : Int)
    ∧ (reach (startUp ++ [worker0, worker0])).totalConnections
        = wrap32 ((reach (startUp ++ [worker0, worker0])).betweenLines
          - ((reach (startUp ++ [worker0, worker0])).at WorkerPC.addOne : Int)
          + ((reach (startUp ++ [worker0, worker0])).at WorkerPC.subOne : Int)) :=
  counter_invariant demoEnv (startUp ++ [worker0, worker0])
    (reach (startUp ++ [worker0, worker0])) (by decide)

/-- C4 as stated fails in the state reached when the first worker has printed
its "established" line and not yet run `Add(1)`: one worker is between the two
lines and the counter is 0. -/
theorem counter_differs_from_lines :
    (exec demoEnv (startUp ++ [worker0, worker0]) init).map
      (fun s => (s.totalConnections, s.betweenLines, s.out.getLast?))
      = some (0, 1, some (Line.established 1 "test-topic-1".toList)) := by
  decide

/-- C5: for every id, base URL and credential the worker's client has the URL
`baseURL ++ "?topic=test-topic-" ++ decimal(id)`, where `decimal(id)` is the
id in decimal notation (`decimal`, independent of the program's `%d`), and,
as its only header, `Authorization` set to `"Bearer " ++ credential`; this
client is what the worker's first step builds. -/
theorem worker_request (connectionID : Int) (baseURL subscriberJWT : Str) :
    workerTopic connectionID = "test-topic-".toList ++ decimal connectionID
    ∧ (workerClient connectionID baseURL subscriberJWT).URL
        = baseURL ++ "?topic=test-topic-".toList ++ decimal connectionID
    ∧ (workerClient connectionID baseURL subscriberJWT).Headers
        = [("Authorization".toList, "Bearer ".toList ++ subscriberJWT)]
    ∧ (workerClient connectionID baseURL subscriberJWT).header "Authorization".toList
        = some ("Bearer ".toList ++ subscriberJWT)
    ∧ ∀ (s : State) (k : Nat),
        stepWorkerAt s k (Worker.spawn connectionID baseURL subscriberJWT)
          = some (s.setWorker k
              { Worker.spawn connectionID baseURL subscriberJWT with
                client := some (workerClient connectionID baseURL subscriberJWT),
                sub := SubPC.subscribing, pc := WorkerPC.logEstablished }) := by
  refine ⟨?_, ?_, ?_, ?_, ?_⟩
  · rw [workerTopic_eq, fmtInt_eq_decimal]
  · simp [workerClient, Client.setHeader, NewClient, workerURL_eq, fmtInt_eq_decimal]
  · simp [workerClient, Client.setHeader, NewClient]
  · simp [workerClient, Client.setHeader, NewClient, Client.header]
  · intro s k; rfl

/-- C5 at three ids: the URLs of the workers 1, 10000 and -7 for the base URL
"https://hub/.well-known/mercure". -/
theorem worker_request_witness :
    (workerClient 1 "https://hub/.well-known/mercure".toList "t".toList).URL
        = "https://hub/.well-known/mercure?topic=test-topic-1".toList
    ∧ (workerClient 10000 "https://hub/.well-known/mercure".toList "t".toList).URL
        = "https://hub/.well-known/mercure?topic=test-topic-10000".toList
    ∧ (workerClient (-7) "https://hub/.well-known/mercure".toList "t".toList).URL
        = "https://hub/.well-known/mercure?topic=test-topic--7".toList
    ∧ decimal 10000 = "10000".toList ∧ decimal (-7) = "-7".toList :=
  ⟨(worker_request 1 _ _).2.1.trans (by decide), (worker_request 10000 _ _).2.1.trans (by decide),
    (worker_request (-7) _ _).2.1.trans (by decide), by decide, by decide⟩

/-- C6, as amended: in an iteration of the operator loop that starts with the
context not cancelled and reads the line `input`: if the trimmed line is a
signed decimal integer `n` with `-2^63 <= n <= 2^63 - 1`, the iteration prints
the counter, the prompt and the "Adding" line and stands at the call
`runLoadTest(ctx, n, ...)`; if the trimmed line is no such integer (not a
signed decimal integer, or one outside that range), it prints the counter,
the prompt and the diagnostic, starts no worker, leaves the counter as it
was and is back at the `select`. -/
theorem operator_iteration (env : Env) (s : State) (input : Str)
    (hm : s.main = MainPC.select) (hd : s.done = false) :
    (∀ n : Int, IsSignedDecimal (TrimSpace input) n → minInt64 ≤ n → n ≤ maxInt64 →
        exec env (iteration input) s =
          some { s with
            out := s.out ++ [Line.mainTotal s.totalConnections, Line.prompt, Line.adding n],
            main := MainPC.launch n })
    ∧ ((¬ ∃ n : Int, IsSignedDecimal (TrimSpace input) n ∧ minInt64 ≤ n ∧ n ≤ maxInt64) →
        exec env (iteration input) s =
          some { s with
            out := s.out ++ [Line.mainTotal s.totalConnections, Line.prompt, Line.invalid],
            main := MainPC.select })
    ∧ (∀ (n : Int) (u : State) (x : Str), u.main = MainPC.launch n →
        step env (Event.main x) u =
          (runLoadTest (callFuel n) u n env.baseURL u.subscriberJWT).map
            (fun t => { t with main := MainPC.select })) := by
  refine ⟨fun n hn hlo hhi => ?_, fun hno => ?_, fun n u x hu => ?_⟩
  · rw [iteration_parsed env s input hm hd, (Atoi_some_iff _ n).mpr ⟨hn, hlo, hhi⟩]
  · rw [iteration_parsed env s input hm hd]
    cases ha : Atoi (TrimSpace input) with
    | none => rfl
    | some n => exact absurd ⟨n, (Atoi_some_iff _ n).mp ha⟩ hno
  · simp [step, stepMain, hu, MainPC.terminated]

/-- C6, witness: the lines "10000" and "abc". -/
theorem operator_iteration_witness :
    exec demoEnv (iteration "10000\n".toList) loopStart
        = some { loopStart with
            out := loopStart.out ++ [Line.mainTotal 0, Line.prompt, Line.adding 10000],
            main := MainPC.launch 10000 }
    ∧ exec demoEnv (iteration "abc\n".toList) loopStart
        = some { loopStart with
            out := loopStart.out ++ [Line.mainTotal 0, Line.prompt, Line.invalid],
            main := MainPC.select } :=
  ⟨(operator_iteration demoEnv loopStart "10000\n".toList (by decide) (by decide)).1 10000
      ((Atoi_some_iff _ _).mp (by decide)).1 (by decide) (by decide),
    (operator_iteration demoEnv loopStart "abc\n".toList (by decide) (by decide)).2.1
      (fun ⟨n, hn⟩ => Option.noConfusion
        (((Atoi_some_iff (TrimSpace "abc\n".toList) n).mpr hn).symm.trans (by decide :
          Atoi (TrimSpace "abc\n".toList) = none)))⟩

/-- C6 as stated fails on the line "9223372036854775808": it is a signed
decimal integer, `2^63`, but `Atoi` reports a range error and the iteration
prints the diagnostic instead of calling `runLoadTest`. -/
theorem big_number_rejected :
    IsSignedDecimal (TrimSpace "9223372036854775808\n".toList) 9223372036854775808
    ∧ exec demoEnv (iteration "9223372036854775808\n".toList) loopStart
        = some { loopStart with
            out := loopStart.out ++ [Line.mainTotal 0, Line.prompt, Line.invalid],
            main := MainPC.select } := by
  refine ⟨⟨"9223372036854775808".toList, by decide, by decide, Or.inl ⟨by decide, ?_⟩⟩, by decide⟩
  simp [decimalValue, Nat.ofDigits]


/-- C7, as amended: the loop looks at the context only in the `select` at the
top of an iteration. In any run from a state in which the context is
cancelled, the loop calls `runLoadTest` at most once more and prints at most
one more prompt (the iteration that had passed the `select` is completed); and
if the loop stands at the `select`, it calls and prints nothing more, and its
next step is the `return`. -/
theorem loop_after_cancel (env : Env) (es : List Event) (s t : State) (hd : s.done = true)
    (h : exec env es s = some t) :
    loopLaunches env es s ≤ 1
    ∧ t.promptLines ≤ s.promptLines + 1
    ∧ (s.main = MainPC.select →
        loopLaunches env es s = 0 ∧ t.promptLines = s.promptLines
        ∧ ∀ input, step env (Event.main input) s = some { s with main := MainPC.returned }) := by
  obtain ⟨_, h2, h3, hmono⟩ := exec_after_cancel env es s t hd h
  have hL : s.main.launchesLeft ≤ 1 := by cases s.main <;> simp [MainPC.launchesLeft]
  have hP : s.main.promptsLeft ≤ 1 := by cases s.main <;> simp [MainPC.promptsLeft]
  refine ⟨by omega, by omega, fun hm => ?_⟩
  rw [hm] at h2 h3
  simp only [MainPC.launchesLeft, MainPC.promptsLeft] at h2 h3
  refine ⟨by omega, by omega, fun input => ?_⟩
  simp [step, stepMain, hm, hd, MainPC.terminated]

/-- C7, witness: the state in which the signal was raised right after the
loop's `select`, and the rest of that iteration. -/
theorem loop_after_cancel_witness :
    loopLaunches demoEnv restOfIteration (reach cancelMidIteration) ≤ 1
    ∧ (reach (cancelMidIteration ++ restOfIteration)).promptLines
        ≤ (reach cancelMidIteration).promptLines + 1 :=
  ⟨(loop_after_cancel demoEnv restOfIteration (reach cancelMidIteration)
      (reach (cancelMidIteration ++ restOfIteration)) (by decide) (by decide)).1,
    (loop_after_cancel demoEnv restOfIteration (reach cancelMidIteration)
      (reach (cancelMidIteration ++ restOfIteration)) (by decide) (by decide)).2.1⟩

/-- C7 as stated fails: the signal is raised (the context is cancelled) while
the loop is past its `select`; afterwards the loop still prints the prompt,
reads "5" and calls `runLoadTest`, which starts five workers. -/
theorem launch_after_cancel :
    (exec demoEnv cancelMidIteration init).map
        (fun s => (s.done, s.promptLines, s.workers.length)) = some (true, 0, 1)
    ∧ (exec demoEnv (cancelMidIteration ++ restOfIteration) init).map
        (fun s => (s.done, s.promptLines, s.workers.length)) = some (true, 1, 6)
    ∧ loopLaunches demoEnv restOfIteration (reach cancelMidIteration) = 1 := by
  decide

/-- C8: `cancel()` closes `ctx.Done()` and a second call changes nothing.
From any state in which the signal goroutine waits and the loop stands at its
`select`, raising the signal once, raising it twice in a row, and raising it
again after the goroutine has woken all end in the same observable state: the
context cancelled, "Shutting down..." printed once, the loop shut down, with
exactly one transition from prompting to shutting down. In general, leaving
out a second signal from a run leaves its observable result as it is; once
the loop is shutting down no step is possible; a run makes the transition at
most once, exactly once when it starts prompting and ends shutting down, and
then the context is cancelled; without cancellation the `select` goes on
prompting. -/
theorem cancel_idempotent (env : Env) :
    (∀ s : State, s.cancel.done = true ∧ s.cancel.cancel = s.cancel)
    ∧ (∀ (s : State) (x : Str), s.handler = HandlerPC.waiting → s.main = MainPC.select →
        exec env (Event.signal :: shutdownRun x) s = some (shutDown s)
        ∧ exec env (Event.signal :: Event.signal :: shutdownRun x) s = some (shutDown s)
        ∧ (exec env (Event.signal :: Event.handler :: Event.signal :: shutdownRest x) s).map
            State.observable = some (shutDown s).observable
        ∧ exec env (Event.signal :: Event.handler :: shutdownRest x) s = some (shutDown s)
        ∧ (shutDown s).done = true ∧ loopState (shutDown s) = LoopState.ShuttingDown
        ∧ loopReturns env (Event.signal :: shutdownRun x) s = 1
        ∧ loopReturns env (Event.signal :: Event.signal :: shutdownRun x) s = 1
        ∧ loopReturns env (Event.signal :: Event.handler :: Event.signal :: shutdownRest x) s = 1)
    ∧ (∀ (s : State) (es1 es2 : List Event) (t2 : State),
        s.handler ≠ HandlerPC.absent → s.main.afterNotify = true →
        exec env (Event.signal :: (es1 ++ Event.signal :: es2)) s = some t2 →
        ∃ t1, exec env (Event.signal :: (es1 ++ es2)) s = some t1
          ∧ t1.observable = t2.observable ∧ loopState t1 = loopState t2)
    ∧ (∀ (s : State) (e : Event), loopState s = LoopState.ShuttingDown → step env e s = none)
    ∧ (∀ (es : List Event) (s t : State), exec env es s = some t →
        loopReturns env es s ≤ 1
        ∧ (loopReturns env es s = 1
            ↔ loopState s = LoopState.Prompting ∧ loopState t = LoopState.ShuttingDown)
        ∧ (loopState s = LoopState.Prompting → loopState t = LoopState.ShuttingDown →
            t.done = true))
    ∧ (∀ (s : State) (input : Str), s.main = MainPC.select →
        step env (Event.main input) s
          = some { s with main := if s.done then MainPC.returned else MainPC.logTotal }) := by
  refine ⟨fun s => ⟨rfl, rfl⟩, ?_, ?_, fun s e h => step_of_shuttingDown env e s h, ?_, ?_⟩
  · intro s x hh hm
    have hfin : ∀ es t, exec env es s = some t → loopState t = LoopState.ShuttingDown →
        loopReturns env es s = 1 := by
      intro es t h ht
      rw [loopReturns_eq env es s t h, if_pos ⟨by simp [loopState, hm], ht⟩]
    have hsd : loopState (shutDown s) = LoopState.ShuttingDown := rfl
    have h1 : exec env (Event.signal :: shutdownRun x) s = some (shutDown s) := by
      simp [shutdownRun, shutdownRest, shutDown, exec, step, stepSignal, stepHandler, stepMain,
        State.cancel, State.print, hh, hm, MainPC.terminated]
    have h2 : exec env (Event.signal :: Event.signal :: shutdownRun x) s
        = some (shutDown s) := by
      simp [shutdownRun, shutdownRest, shutDown, exec, step, stepSignal, stepHandler, stepMain,
        State.cancel, State.print, hh, hm, MainPC.terminated]
    have h3 : exec env (Event.signal :: Event.handler :: Event.signal :: shutdownRest x) s
        = some { shutDown s with sigBuf := true } := by
      simp [shutdownRest, shutDown, exec, step, stepSignal, stepHandler, stepMain,
        State.cancel, State.print, hh, hm, MainPC.terminated]
    have h4 : exec env (Event.signal :: Event.handler :: shutdownRest x) s
        = some (shutDown s) := by
      simp [shutdownRest, shutDown, exec, step, stepSignal, stepHandler, stepMain,
        State.cancel, State.print, hh, hm, MainPC.terminated]
    exact ⟨h1, h2, by rw [h3]; rfl, h4, rfl, hsd, hfin _ _ h1 hsd, hfin _ _ h2 hsd,
      hfin _ _ h3 rfl⟩
  · intro s es1 es2 t2 hh hm h
    obtain ⟨t1, h1, h2⟩ := signal_twice env s es1 es2 t2 hh hm h
    refine ⟨t1, h1, h2, ?_⟩
    have hmain : t1.main = t2.main := by
      have := congrArg State.main h2
      exact this
    simp only [loopState, hmain]
  · intro es s t h
    have := loopReturns_eq env es s t h
    refine ⟨?_, ?_, fun hs ht => exec_shuttingDown_done env es s t h hs ht⟩
    · rw [this]
      split <;> omega
    · rw [this]
      constructor
      · intro h1
        by_contra hc
        rw [if_neg hc] at h1
        exact absurd h1 (by decide)
      · intro hc
        rw [if_pos hc]
  · intro s input hm
    by_cases hd : s.done = true <;> simp [step, stepMain, hm, hd, MainPC.terminated]

/-- C8 at the start of the operator loop: one signal and two signals lead to
the same state, and each run makes the transition to shutting down once. -/
theorem cancel_idempotent_witness :
    exec demoEnv (Event.signal :: shutdownRun []) loopStart = some (shutDown loopStart)
    ∧ exec demoEnv (Event.signal :: Event.signal :: shutdownRun []) loopStart
        = some (shutDown loopStart)
    ∧ loopReturns demoEnv (Event.signal :: shutdownRun []) loopStart = 1
    ∧ loopReturns demoEnv (Event.signal :: Event.signal :: shutdownRun []) loopStart = 1
    ∧ (shutDown loopStart).out
        = [Line.starting, Line.testingInitial, Line.shuttingDown] :=
  ⟨((cancel_idempotent demoEnv).2.1 loopStart [] rfl rfl).1,
    ((cancel_idempotent demoEnv).2.1 loopStart [] rfl rfl).2.1,
    ((cancel_idempotent demoEnv).2.1 loopStart [] rfl rfl).2.2.2.2.2.2.1,
    ((cancel_idempotent demoEnv).2.1 loopStart [] rfl rfl).2.2.2.2.2.2.2.1,
    by decide⟩

/-- C9, as amended: for every secret and every time `now` (its nanoseconds
within the second) at which neither `now.Unix()` nor the addition of 24 hours
leaves the `int64` range of the seconds, the claim set that
`generateSubscriberJWT` hands to the signature has `exp` equal to
`now.Unix() + 86400`, has `mercure.subscribe` equal to the one-element list
`["*"]`, and has no other claim. -/
theorem subscriberClaims_spec (now : Time) (hnsec : 0 ≤ now.nsec ∧ now.nsec < 1000000000)
    (hlow : minInt64 + unixToInternal ≤ now.sec) (hhigh : now.sec + 86400 ≤ maxInt64) :
    MapClaims.get (subscriberClaims now) "exp".toList = some (ClaimValue.num (now.Unix + 86400))
    ∧ (now.Add (Hour * 24)).Unix = now.Unix + 86400
    ∧ MapClaims.get (subscriberClaims now) "mercure".toList
        = some (ClaimValue.obj [("subscribe".toList, ["*".toList])])
    ∧ (subscriberClaims now).map Prod.fst = ["mercure".toList, "exp".toList]
    ∧ ∀ (sign : MapClaims → Str → Except Str Str) (secret : Str),
        generateSubscriberJWT sign now secret
          = (sign
              [ ("mercure".toList, ClaimValue.obj [("subscribe".toList, ["*".toList])]),
                ("exp".toList, ClaimValue.num (now.Unix + 86400)) ] secret).mapError
              Line.jwtFailed := by
  have hexp : (now.Add (Hour * 24)).Unix = now.Unix + 86400 := by
    obtain ⟨h0, h1⟩ := hnsec
    have hd : Int.tdiv (Hour * 24) 1000000000 = 86400 := by decide
    have hm : Int.tmod (Hour * 24) 1000000000 = 0 := by decide
    unfold minInt64 unixToInternal at hlow
    unfold maxInt64 at hhigh
    have hsum : wrap64 (now.sec + 86400) = now.sec + 86400 := by
      unfold wrap64 wrapInt
      norm_num at hlow hhigh ⊢
      omega
    simp only [Time.Add, hd, hm, add_zero]
    rw [if_neg (by omega), if_neg (by omega)]
    simp only [Time.addSec, hsum]
    rw [if_pos (by constructor <;> intro <;> omega)]
    simp only [Time.Unix, unixToInternal]
    unfold wrap64 wrapInt
    norm_num at hlow hhigh ⊢
    omega
  refine ⟨?_, hexp, ?_, ?_, ?_⟩
  · simp [subscriberClaims, MapClaims.get, hexp, List.find?]
  · simp [subscriberClaims, MapClaims.get, List.find?]
  · simp [subscriberClaims]
  · intro sign secret
    simp only [generateSubscriberJWT, subscriberClaims, hexp]
    cases sign _ secret <;> rfl

/-- C9, witness: the clock at 1700000000 s and 5 ns after January 1, 1970. -/
theorem subscriberClaims_spec_witness :
    (unixTime 1700000000 5).Unix = 1700000000
    ∧ MapClaims.get (subscriberClaims (unixTime 1700000000 5)) "exp".toList
      = some (ClaimValue.num (1700000000 + 86400)) :=
  ⟨by decide,
    (subscriberClaims_spec (unixTime 1700000000 5) (by decide) (by decide) (by decide)).1⟩

/-- C9 as stated fails at the time `time.Unix(9223372036854775797, 0)`, ten
seconds before the last `int64` second: `exp` is `-9223372036854689419`, not
`now.Unix() + 86400 = 9223372036854862197`. -/
theorem exp_wraps :
    (unixTime 9223372036854775797 0).Unix = 9223372036854775797
    ∧ MapClaims.get (subscriberClaims (unixTime 9223372036854775797 0)) "exp".toList
      = some (ClaimValue.num (-9223372036854689419)) := by
  decide

/-- C10: for a fixed base URL the URLs of two worker ids are equal exactly
when the ids are equal; so the ids `1, ..., count` of one batch have `count`
pairwise distinct URLs, and the same id has the same URL in every batch. -/
theorem workerURL_eq_iff (baseURL : Str) (i j : Int) :
    (baseURL ++ "?topic=test-topic-".toList ++ fmtInt i
        = baseURL ++ "?topic=test-topic-".toList ++ fmtInt j ↔ i = j)
    ∧ (workerURL i baseURL = workerURL j baseURL ↔ i = j)
    ∧ ∀ count : Nat,
        ((List.range count).map (fun (k : Nat) => workerURL ((k : Int) + 1) baseURL)).Nodup := by
  have key : baseURL ++ "?topic=test-topic-".toList ++ fmtInt i
        = baseURL ++ "?topic=test-topic-".toList ++ fmtInt j ↔ i = j := by
    constructor
    · intro h
      exact fmtInt_injective i j (List.append_cancel_left h)
    · intro h; rw [h]
  refine ⟨key, by rw [workerURL_eq, workerURL_eq]; exact key, fun count => ?_⟩
  refine List.Nodup.map ?_ (List.nodup_range count)
  intro a b hab
  simp only [workerURL_eq] at hab
  have := fmtInt_injective _ _ (List.append_cancel_left hab)
  omega

end LoadTest
